import Mathlib

set_option autoImplicit false

namespace RetailStore

/-! Shallow embedding of the manifest-transformation and deployment logic of
pulumi-start-aws/__main__.py.  Parsed YAML documents are modelled as a
JSON-like tree; the Python dict/str operations used by the script are
modelled including their failure behaviour (an exception is `none`). -/

/-- A decoded YAML value: the shape of one parsed Kubernetes manifest document
as handed to the ConfigGroup transformation callbacks. -/
inductive Val where
  | vstr (s : String)
  | vnum (n : Int)
  | vbool (b : Bool)
  | vnull
  | vobj (fields : List (String × Val))
  | varr (items : List Val)

mutual

/-- Structural equality on values: the Python == used by the script (it only
ever compares strings against strings or against non-strings, where Python
== is structural as well). -/
def Val.beq : Val → Val → Bool
  | .vstr a, .vstr b => a == b
  | .vnum a, .vnum b => a == b
  | .vbool a, .vbool b => a == b
  | .vnull, .vnull => true
  | .vobj a, .vobj b => Val.beqFields a b
  | .varr a, .varr b => Val.beqList a b
  | _, _ => false

def Val.beqList : List Val → List Val → Bool
  | [], [] => true
  | a :: as, b :: bs => Val.beq a b && Val.beqList as bs
  | _, _ => false

def Val.beqFields : List (String × Val) → List (String × Val) → Bool
  | [], [] => true
  | (k1, v1) :: as, (k2, v2) :: bs =>
    k1 == k2 && Val.beq v1 v2 && Val.beqFields as bs
  | _, _ => false

end

instance : BEq Val := ⟨Val.beq⟩

mutual

theorem Val.beq_iff : ∀ (a b : Val), (Val.beq a b = true) ↔ a = b
  | .vstr _, .vstr _ => by simp [Val.beq]
  | .vstr _, .vnum _ => by simp [Val.beq]
  | .vstr _, .vbool _ => by simp [Val.beq]
  | .vstr _, .vnull => by simp [Val.beq]
  | .vstr _, .vobj _ => by simp [Val.beq]
  | .vstr _, .varr _ => by simp [Val.beq]
  | .vnum _, .vstr _ => by simp [Val.beq]
  | .vnum _, .vnum _ => by simp [Val.beq]
  | .vnum _, .vbool _ => by simp [Val.beq]
  | .vnum _, .vnull => by simp [Val.beq]
  | .vnum _, .vobj _ => by simp [Val.beq]
  | .vnum _, .varr _ => by simp [Val.beq]
  | .vbool _, .vstr _ => by simp [Val.beq]
  | .vbool _, .vnum _ => by simp [Val.beq]
  | .vbool _, .vbool _ => by simp [Val.beq]
  | .vbool _, .vnull => by simp [Val.beq]
  | .vbool _, .vobj _ => by simp [Val.beq]
  | .vbool _, .varr _ => by simp [Val.beq]
  | .vnull, .vstr _ => by simp [Val.beq]
  | .vnull, .vnum _ => by simp [Val.beq]
  | .vnull, .vbool _ => by simp [Val.beq]
  | .vnull, .vnull => by simp [Val.beq]
  | .vnull, .vobj _ => by simp [Val.beq]
  | .vnull, .varr _ => by simp [Val.beq]
  | .vobj _, .vstr _ => by simp [Val.beq]
  | .vobj _, .vnum _ => by simp [Val.beq]
  | .vobj _, .vbool _ => by simp [Val.beq]
  | .vobj _, .vnull => by simp [Val.beq]
  | .vobj xs, .vobj ys => by
    rw [Val.beq]
    constructor
    · intro h
      exact congrArg Val.vobj ((Val.beqFields_iff xs ys).1 h)
    · intro h
      cases h
      exact (Val.beqFields_iff xs xs).2 rfl
  | .vobj _, .varr _ => by simp [Val.beq]
  | .varr _, .vstr _ => by simp [Val.beq]
  | .varr _, .vnum _ => by simp [Val.beq]
  | .varr _, .vbool _ => by simp [Val.beq]
  | .varr _, .vnull => by simp [Val.beq]
  | .varr _, .vobj _ => by simp [Val.beq]
  | .varr xs, .varr ys => by
    rw [Val.beq]
    constructor
    · intro h
      exact congrArg Val.varr ((Val.beqList_iff xs ys).1 h)
    · intro h
      cases h
      exact (Val.beqList_iff xs xs).2 rfl

theorem Val.beqList_iff : ∀ (a b : List Val), (Val.beqList a b = true) ↔ a = b
  | [], [] => by simp [Val.beqList]
  | [], _ :: _ => by simp [Val.beqList]
  | _ :: _, [] => by simp [Val.beqList]
  | a :: as, b :: bs => by
    rw [Val.beqList]
    simp [Val.beq_iff a b, Val.beqList_iff as bs]

theorem Val.beqFields_iff :
    ∀ (a b : List (String × Val)), (Val.beqFields a b = true) ↔ a = b
  | [], [] => by simp [Val.beqFields]
  | [], _ :: _ => by simp [Val.beqFields]
  | _ :: _, [] => by simp [Val.beqFields]
  | (k1, v1) :: as, (k2, v2) :: bs => by
    rw [Val.beqFields]
    simp [Val.beq_iff v1 v2, Val.beqFields_iff as bs, Prod.ext_iff, and_assoc]

end

instance : LawfulBEq Val where
  eq_of_beq h := (Val.beq_iff _ _).1 h
  rfl := (Val.beq_iff _ _).2 rfl

instance : DecidableEq Val :=
  fun a b => decidable_of_iff (Val.beq a b = true) (Val.beq_iff a b)

/-- First value stored under key k (Python dict lookup; dicts have unique keys,
so first-occurrence semantics coincide with dict semantics). -/
def lookupV : List (String × Val) → String → Option Val
  | [], _ => none
  | (k1, v) :: rest, k => if k1 = k then some v else lookupV rest k

/-- Python `k in dict` on the key list. -/
def hasKey : List (String × Val) → String → Bool
  | [], _ => false
  | (k1, _) :: rest, k => if k1 = k then true else hasKey rest k

/-- Python dict assignment `d[k] = v`: replace the value at an existing key in
place, append the pair at the end otherwise (insertion order). -/
def setK : List (String × Val) → String → Val → List (String × Val)
  | [], k, v => [(k, v)]
  | (k1, v1) :: rest, k, v =>
    if k1 = k then (k1, v) :: rest else (k1, v1) :: setK rest k v

/-- Python `del`-style removal of every entry at a key (used only to state
frame properties, not by the embedded code). -/
def removeK : List (String × Val) → String → List (String × Val)
  | [], _ => []
  | (k1, v1) :: rest, k =>
    if k1 = k then removeK rest k else (k1, v1) :: removeK rest k

/-- Does the character list start with the given pattern. -/
def startsCh : List Char → List Char → Bool
  | _, [] => true
  | [], _ :: _ => false
  | a :: s, b :: p => a == b && startsCh s p

/-- Does the character list contain the given pattern as a contiguous run. -/
def subCh : List Char → List Char → Bool
  | [], n => n.isEmpty
  | a :: s, n => startsCh (a :: s) n || subCh s n

/-- Python str.startswith. -/
def strStarts (s p : String) : Bool := startsCh s.data p.data

/-- Python `sub in s` on strings (substring containment). -/
def strContains (s sub : String) : Bool := subCh s.data sub.data

/-- Python str.lower (per character). -/
def strLower (s : String) : String := ⟨s.data.map Char.toLower⟩

/-- Python obj.get(k, default): AttributeError (none) unless the receiver is a
dict. -/
def pyGet : Val → String → Val → Option Val
  | .vobj fields, k, d => some ((lookupV fields k).getD d)
  | _, _, _ => none

/-- Python obj[k] with a string key: KeyError on a missing key, TypeError on a
non-dict receiver — both are none. -/
def pyIndex : Val → String → Option Val
  | .vobj fields, k => lookupV fields k
  | _, _ => none

/-- Python membership test `k in v`: key test on dicts, substring test on
strings, element test on lists, TypeError (none) otherwise. -/
def pyIn (k : String) : Val → Option Bool
  | .vobj fields => some (hasKey fields k)
  | .vstr s => some (strContains s k)
  | .varr items => some (items.contains (.vstr k))
  | _ => none

/-- Python item assignment `v[k] = x`: TypeError (none) unless v is a dict. -/
def pySetKey : Val → String → Val → Option Val
  | .vobj fields, k, v => some (.vobj (setK fields k v))
  | _, _, _ => none

/-- Python name.lower(): AttributeError (none) unless the receiver is a
string. -/
def pyLowerStr : Val → Option String
  | .vstr s => some (strLower s)
  | _ => none

/-- Value reached by descending through dict keys (used to state properties;
none when any step is missing or not a dict). -/
def getPath : Val → List String → Option Val
  | v, [] => some v
  | .vobj fields, k :: rest =>
    match lookupV fields k with
    | some w => getPath w rest
    | none => none
  | _, _ :: _ => none

/-- Rewrite the value sitting at a key path, but only when the whole chain of
keys is present; a write into a dict that was obtained as a detached
`.get(k, default)` default in Python mutates a temporary and is lost, which
this models by leaving the document unchanged. -/
def setAt : Val → List String → (Val → Val) → Val
  | v, [], f => f v
  | .vobj fields, k :: rest, f =>
    match lookupV fields k with
    | some w => .vobj (setK fields k (setAt w rest f))
    | none => .vobj fields
  | v, _ :: _, _ => v

/-- The target namespace hard-coded by the script. -/
def namespace_name : String := "retailstore"

/-- apply_namespace from __main__.py: if the document has a metadata key and
metadata lacks the namespace or carries a different one, set
metadata.namespace to the target namespace. -/
def apply_namespace (obj : Val) : Option Val := do
  let b ← pyIn "metadata" obj
  if b then do
    let md ← pyIndex obj "metadata"
    let nIn ← pyIn "namespace" md
    let cond ←
      if nIn then do
        let v ← pyIndex md "namespace"
        pure (v != Val.vstr namespace_name)
      else pure true
    if cond then do
      let md2 ← pySetKey md "namespace" (.vstr namespace_name)
      pySetKey obj "metadata" md2
    else pure obj
  else pure obj

/-- The inner loop of replace_images_with_ecr over service_image_map entries:
first service whose name the image equals, or whose `name:` the image starts
with, wins (break).  A non-string image raises AttributeError on .startswith
as soon as one table entry is examined. -/
def findSvc : List (String × String) → Val → Option (Option String)
  | [], _ => some none
  | (n, u) :: rest, img =>
    if img == Val.vstr n then some (some u)
    else
      match img with
      | .vstr s => if strStarts s (n ++ ":") then some (some u) else findSvc rest (.vstr s)
      | _ => none

/-- Body of the per-container loop: read container.get("image", ""), find the
first matching service, and assign the ECR URI over the image field. -/
def rewriteContainer (table : List (String × String)) (c : Val) : Option Val := do
  let img ← pyGet c "image" (.vstr "")
  let res ← findSvc table img
  match res with
  | some uri => pySetKey c "image" (.vstr uri)
  | none => pure c

/-- Effectful map that stops at the first failing element, like the Python for
loop raising out of the transformation callback. -/
def mapME (f : Val → Option Val) : List Val → Option (List Val)
  | [] => some []
  | x :: xs => do
    let y ← f x
    let ys ← mapME f xs
    pure (y :: ys)

/-- Python `for container in containers:` over whatever value sits there:
element-wise rewrite of a list; iterating a dict yields its key strings and
iterating a string yields its characters, on which .get raises; numbers,
booleans and null are not iterable. -/
def rewriteSeq (table : List (String × String)) (c : Val) : Option Val :=
  match c with
  | .varr items => (mapME (rewriteContainer table) items).map .varr
  | .vobj [] => some c
  | .vobj (_ :: _) => none
  | .vstr s => if s.isEmpty then some c else none
  | _ => none

/-- Chain of .get(k, \x7b\x7d) reads with dict defaults. -/
def chainGet : Val → List String → Option Val
  | v, [] => some v
  | v, k :: rest => do
    let w ← pyGet v k (.vobj [])
    chainGet w rest

/-- The workload kinds recognized by the image-rewrite block. -/
def workloadKinds : List String :=
  ["Deployment", "StatefulSet", "DaemonSet", "Job", "CronJob"]

def workloadKindVals : List Val := workloadKinds.map .vstr

/-- Keys from spec down to the pod spec: Deployment/StatefulSet/DaemonSet and
Job read spec.template.spec (two textually identical branches in the source);
CronJob reads spec.jobTemplate.spec.template.spec.  The source's final
`else: pod_spec = \x7b\x7d` branch is unreachable. -/
def podSpecPath (kind : Val) : List String :=
  if kind == Val.vstr "CronJob" then ["jobTemplate", "spec", "template", "spec"]
  else ["template", "spec"]

/-- The workload half of replace_images_with_ecr: locate the pod spec with
defaulted .get reads, rewrite the image of every container and
init-container, writing through only where the real chain of keys exists. -/
def workloadBlock (table : List (String × String)) (kind : Val) (obj : Val) :
    Option Val :=
  if workloadKindVals.contains kind then do
    let spec ← pyGet obj "spec" (.vobj [])
    let podSpec ← chainGet spec (podSpecPath kind)
    let containers ← pyGet podSpec "containers" (.varr [])
    let newContainers ← rewriteSeq table containers
    let initCs ← pyGet podSpec "initContainers" (.varr [])
    let newInitCs ← rewriteSeq table initCs
    pure (setAt (setAt obj ("spec" :: podSpecPath kind ++ ["containers"])
            (fun _ => newContainers))
          ("spec" :: podSpecPath kind ++ ["initContainers"]) (fun _ => newInitCs))
  else pure obj

/-- The Service half of replace_images_with_ecr: a Service whose
metadata.name contains "ui" (case-insensitively) gets spec.type forced to
LoadBalancer; the assignment into a missing spec mutates the detached .get
default and is lost. -/
def serviceBlock (kind : Val) (obj : Val) : Option Val :=
  if kind == Val.vstr "Service" then do
    let md ← pyGet obj "metadata" (.vobj [])
    let name ← pyGet md "name" (.vstr "")
    let low ← pyLowerStr name
    if strContains low "ui" then do
      let spec ← pyGet obj "spec" (.vobj [])
      let spec2 ← pySetKey spec "type" (.vstr "LoadBalancer")
      pure (setAt obj ["spec"] (fun _ => spec2))
    else pure obj
  else pure obj

/-- replace_images_with_ecr from __main__.py: obj.get("kind", "") is read
once, then the workload block and the Service block run in sequence. -/
def replace_images_with_ecr (table : List (String × String)) (obj : Val) :
    Option Val := do
  let kind ← pyGet obj "kind" (.vstr "")
  let obj1 ← workloadBlock table kind obj
  serviceBlock kind obj1

/-- The ordered callback list handed to ConfigGroup, applied left to right to
one document. -/
def applyTransformations (tfs : List (Val → Option Val)) (d : Val) : Option Val :=
  tfs.foldlM (fun x f => f x) d

/-- The pipeline exactly as the source wires it:
transformations=[replace_images_with_ecr, apply_namespace]. -/
def transformPipeline (table : List (String × String)) (d : Val) : Option Val :=
  applyTransformations [replace_images_with_ecr table, apply_namespace] d

/-- The image-rewrite rule taken on its own, as the spec's rule 1 words it
(reading kind itself). -/
def image_rewrite_rule (table : List (String × String)) (obj : Val) : Option Val := do
  let kind ← pyGet obj "kind" (.vstr "")
  workloadBlock table kind obj

/-- The service-type override rule taken on its own, as the spec's rule 3
words it (reading kind itself). -/
def type_override_rule (obj : Val) : Option Val := do
  let kind ← pyGet obj "kind" (.vstr "")
  serviceBlock kind obj

/-- The reference composition the spec prescribes: image-rewrite, then
namespace-injection, then type-override, in that order. -/
def referencePipeline (table : List (String × String)) (d : Val) : Option Val :=
  (image_rewrite_rule table d).bind
    (fun d1 => (apply_namespace d1).bind type_override_rule)

/-! Deployment-orchestration part of the script: which services have manifest
files, the verification report, the deploy loop and the exports. -/

/-- State of one service's kompose_files directory. -/
inductive DirInfo where
  | missing
  | present (yamlFiles : List String)
  deriving DecidableEq, Repr

/-- Directory exists and holds at least one .yaml or .yml file: the condition
both the verification loop and the deploy loop test. -/
def hasFiles (fsys : String → DirInfo) (s : String) : Bool :=
  match fsys s with
  | .missing => false
  | .present files => !files.isEmpty

/-- services = ["cart", "catalog", "checkout", "orders", "ui"]. -/
def services : List String := ["cart", "catalog", "checkout", "orders", "ui"]

/-- The services the verification loop records as having kompose files. -/
def services_with_files (fsys : String → DirInfo) : List String :=
  services.filter (fun s => hasFiles fsys s)

/-- The `if not services_with_files:` branch fires exactly when the list is
empty, logging at error level. -/
def no_files_error_logged (fsys : String → DirInfo) : Bool :=
  (services_with_files fsys).isEmpty

/-- Per-service outcome of the deploy loop: a ConfigGroup is created, or the
service is skipped with a warning; the script has no failed state of its
own. -/
inductive SvcStatus where
  | deployed
  | skipped
  deriving DecidableEq, Repr

def service_status (fsys : String → DirInfo) (s : String) : SvcStatus :=
  if hasFiles fsys s then .deployed else .skipped

/-- Services for which the deploy loop submits a ConfigGroup, in loop order. -/
def submitted_services (fsys : String → DirInfo) : List String :=
  services.foldl (fun acc s => if hasFiles fsys s then acc ++ [s] else acc) []

/-- deployed_count accumulated by the deploy loop. -/
def deployed_count (fsys : String → DirInfo) : Nat :=
  services.foldl (fun n s => if hasFiles fsys s then n + 1 else n) 0

/-- Observable outcome of one run of the script's deployment section. -/
structure RunResult where
  withFiles : List String
  errorLogged : Bool
  submitted : List String
  count : Nat
  exportsEmitted : Bool
  deriving DecidableEq, Repr

/-- The straight-line main flow after image building: verification report,
optional error log, deploy loop, exports.  No statement raises or exits, so
the final pulumi.export calls are always reached, recorded by
exportsEmitted. -/
def runProgram (fsys : String → DirInfo) : RunResult :=
  ⟨services_with_files fsys, no_files_error_logged fsys, submitted_services fsys,
    deployed_count fsys, true⟩

/-! Configuration surface (lines 8-13 of __main__.py). -/

/-- The pulumi.Config read interface: get returns the configured string,
get_int the configured integer, or none when the option is absent. -/
structure PulumiConfig where
  getStr : String → Option String
  getInt : String → Option Int

def min_cluster_size (c : PulumiConfig) : Int :=
  (c.getInt "minClusterSize").getD 1

def max_cluster_size (c : PulumiConfig) : Int :=
  (c.getInt "maxClusterSize").getD 2

def desired_cluster_size (c : PulumiConfig) : Int :=
  (c.getInt "desiredClusterSize").getD 2

def eks_node_instance_type (c : PulumiConfig) : String :=
  (c.getStr "eksNodeInstanceType").getD "t3.medium"

def vpc_network_cidr (c : PulumiConfig) : String :=
  (c.getStr "vpcNetworkCidr").getD "10.0.0.0/16"

/-! Association-list lemma kit. -/

theorem lookup_setK_self (fs : List (String × Val)) (k : String) (v : Val) :
    lookupV (setK fs k v) k = some v := by
  induction fs with
  | nil => simp [setK, lookupV]
  | cons p rest ih =>
    obtain ⟨k1, v1⟩ := p
    by_cases h : k1 = k
    · simp [setK, lookupV, h]
    · simp [setK, lookupV, h, ih]

theorem lookup_setK_ne (fs : List (String × Val)) (k1 k2 : String) (v : Val)
    (h : k1 ≠ k2) : lookupV (setK fs k1 v) k2 = lookupV fs k2 := by
  induction fs with
  | nil => simp [setK, lookupV, h]
  | cons p rest ih =>
    obtain ⟨ka, va⟩ := p
    by_cases hk : ka = k1
    · subst hk
      simp [setK, lookupV, h, ih]
    · by_cases hk2 : ka = k2
      · subst hk2
        simp [setK, lookupV, hk]
      · simp [setK, lookupV, hk, hk2, ih]

theorem hasKey_eq_isSome (fs : List (String × Val)) (k : String) :
    hasKey fs k = (lookupV fs k).isSome := by
  induction fs with
  | nil => simp [hasKey, lookupV]
  | cons p rest ih =>
    obtain ⟨k1, v1⟩ := p
    by_cases h : k1 = k
    · simp [hasKey, lookupV, h]
    · simp [hasKey, lookupV, h, ih]

theorem setK_lookup_self (fs : List (String × Val)) (k : String) (v : Val)
    (h : lookupV fs k = some v) : setK fs k v = fs := by
  induction fs with
  | nil => simp [lookupV] at h
  | cons p rest ih =>
    obtain ⟨k1, v1⟩ := p
    by_cases hk : k1 = k
    · simp [lookupV, hk] at h
      simp [setK, hk, h]
    · simp [lookupV, hk] at h
      simp [setK, hk, ih h]

theorem hasKey_setK_self (fs : List (String × Val)) (k : String) (v : Val) :
    hasKey (setK fs k v) k = true := by
  simp [hasKey_eq_isSome, lookup_setK_self]

theorem hasKey_setK_ne (fs : List (String × Val)) (k1 k2 : String) (v : Val)
    (h : k1 ≠ k2) : hasKey (setK fs k1 v) k2 = hasKey fs k2 := by
  simp [hasKey_eq_isSome, lookup_setK_ne fs k1 k2 v h]

theorem setK_comm (fs : List (String × Val)) (k1 k2 : String) (v1 v2 : Val)
    (hne : k1 ≠ k2) (hp : hasKey fs k1 = true) :
    setK (setK fs k1 v1) k2 v2 = setK (setK fs k2 v2) k1 v1 := by
  induction fs with
  | nil => simp [hasKey] at hp
  | cons p rest ih =>
    obtain ⟨ka, va⟩ := p
    by_cases ha : ka = k1
    · subst ha
      have h2 : ¬ (ka = k2) := hne
      simp [setK, h2]
    · by_cases hb : ka = k2
      · subst hb
        simp [setK, ha]
      · have hp2 : hasKey rest k1 = true := by simpa [hasKey, ha] using hp
        simp [setK, ha, hb, ih hp2]

theorem removeK_setK_self (fs : List (String × Val)) (k : String) (v : Val) :
    removeK (setK fs k v) k = removeK fs k := by
  induction fs with
  | nil => simp [setK, removeK]
  | cons p rest ih =>
    obtain ⟨k1, v1⟩ := p
    by_cases h : k1 = k
    · simp [setK, removeK, h]
    · simp [setK, removeK, h, ih]

theorem removeK_setK_ne (fs : List (String × Val)) (k1 k2 : String) (v : Val)
    (h : k1 ≠ k2) : removeK (setK fs k1 v) k2 = setK (removeK fs k2) k1 v := by
  induction fs with
  | nil => simp [setK, removeK, h]
  | cons p rest ih =>
    obtain ⟨ka, va⟩ := p
    by_cases ha : ka = k1
    · subst ha
      have h2 : ¬ (ka = k2) := h
      simp [setK, removeK, h2, ih]
    · by_cases hb : ka = k2
      · subst hb
        simp [setK, removeK, ha, ih]
      · simp [setK, removeK, ha, hb, ih]

theorem lookup_removeK_ne (fs : List (String × Val)) (k1 k2 : String)
    (h : k1 ≠ k2) : lookupV (removeK fs k1) k2 = lookupV fs k2 := by
  induction fs with
  | nil => simp [removeK]
  | cons p rest ih =>
    obtain ⟨ka, va⟩ := p
    by_cases ha : ka = k1
    · subst ha
      have h2 : ¬ (ka = k2) := h
      simp [removeK, lookupV, h2, ih]
    · by_cases hb : ka = k2
      · subst hb
        simp [removeK, lookupV, ha]
      · simp [removeK, lookupV, ha, hb, ih]

theorem hasKey_removeK_ne (fs : List (String × Val)) (k1 k2 : String)
    (h : k1 ≠ k2) : hasKey (removeK fs k1) k2 = hasKey fs k2 := by
  simp [hasKey_eq_isSome, lookup_removeK_ne fs k1 k2 h]

theorem map_setK_compat (m : String × Val → String × Val)
    (fs : List (String × Val)) (k : String) (v w : Val)
    (hv : lookupV fs k = some v) (hm : m (k, w) = m (k, v)) :
    (setK fs k w).map m = fs.map m := by
  induction fs with
  | nil => simp [lookupV] at hv
  | cons p rest ih =>
    obtain ⟨k1, v1⟩ := p
    by_cases h : k1 = k
    · subst h
      simp [lookupV] at hv
      subst hv
      simp [setK, hm]
    · simp [lookupV, h] at hv
      simp [setK, h, ih hv]

/-! General facts about the deploy-loop folds. -/

theorem foldl_count_eq (p : String → Bool) (l : List String) (n : Nat) :
    l.foldl (fun m s => if p s then m + 1 else m) n = n + (l.filter p).length := by
  induction l generalizing n with
  | nil => simp
  | cons a t ih =>
    by_cases h : p a
    · simp [h, ih, Nat.add_comm, Nat.add_assoc, Nat.add_left_comm]
    · simp [h, ih]

theorem foldl_collect_eq (p : String → Bool) (l : List String)
    (acc : List String) :
    l.foldl (fun a s => if p s then a ++ [s] else a) acc = acc ++ l.filter p := by
  induction l generalizing acc with
  | nil => simp
  | cons a t ih =>
    by_cases h : p a
    · simp [h, ih]
    · simp [h, ih]

theorem submitted_eq_with_files (fsys : String → DirInfo) :
    submitted_services fsys = services_with_files fsys := by
  simp [submitted_services, services_with_files, foldl_collect_eq]

theorem count_eq_length_with_files (fsys : String → DirInfo) :
    deployed_count fsys = (services_with_files fsys).length := by
  simp [deployed_count, services_with_files, foldl_count_eq]

/-! Claim C9: configuration surface. -/

/-- A configuration that sets values under the option names the claim states
(nodeInstanceType, vpcCidr). -/
def claimedNameConfig : PulumiConfig :=
  ⟨fun k => if k = "nodeInstanceType" then some "m5.large"
    else if k = "vpcCidr" then some "10.9.0.0/16" else none,
   fun _ => none⟩

/-- C9 counterexample: the program reads the instance type under
eksNodeInstanceType and the CIDR under vpcNetworkCidr, so values provided
under the names the claim states (nodeInstanceType, vpcCidr) are ignored and
the defaults are used instead. -/
theorem claim9_counterexample :
    claimedNameConfig.getStr "nodeInstanceType" = some "m5.large"
    ∧ claimedNameConfig.getStr "vpcCidr" = some "10.9.0.0/16"
    ∧ eks_node_instance_type claimedNameConfig = "t3.medium"
    ∧ vpc_network_cidr claimedNameConfig = "10.0.0.0/16" := by
  refine ⟨by decide, by decide, by decide, by decide⟩

/-- C9 amended: the recognized options are minClusterSize (int, default 1),
maxClusterSize (int, default 2), desiredClusterSize (int, default 2),
eksNodeInstanceType (string, default "t3.medium") and vpcNetworkCidr
(string, default "10.0.0.0/16"); an absent option yields its default and a
value provided under the recognized name is the one used. -/
theorem claim9_amended :
    (∀ c : PulumiConfig, c.getInt "minClusterSize" = none → min_cluster_size c = 1)
    ∧ (∀ (c : PulumiConfig) (v : Int),
        c.getInt "minClusterSize" = some v → min_cluster_size c = v)
    ∧ (∀ c : PulumiConfig, c.getInt "maxClusterSize" = none → max_cluster_size c = 2)
    ∧ (∀ (c : PulumiConfig) (v : Int),
        c.getInt "maxClusterSize" = some v → max_cluster_size c = v)
    ∧ (∀ c : PulumiConfig,
        c.getInt "desiredClusterSize" = none → desired_cluster_size c = 2)
    ∧ (∀ (c : PulumiConfig) (v : Int),
        c.getInt "desiredClusterSize" = some v → desired_cluster_size c = v)
    ∧ (∀ c : PulumiConfig,
        c.getStr "eksNodeInstanceType" = none → eks_node_instance_type c = "t3.medium")
    ∧ (∀ (c : PulumiConfig) (v : String),
        c.getStr "eksNodeInstanceType" = some v → eks_node_instance_type c = v)
    ∧ (∀ c : PulumiConfig,
        c.getStr "vpcNetworkCidr" = none → vpc_network_cidr c = "10.0.0.0/16")
    ∧ (∀ (c : PulumiConfig) (v : String),
        c.getStr "vpcNetworkCidr" = some v → vpc_network_cidr c = v) := by
  refine ⟨?_, ?_, ?_, ?_, ?_, ?_, ?_, ?_, ?_, ?_⟩ <;>
    intro c <;>
    first
      | (intro v h; simp [min_cluster_size, max_cluster_size, desired_cluster_size,
          eks_node_instance_type, vpc_network_cidr, h])
      | (intro h; simp [min_cluster_size, max_cluster_size, desired_cluster_size,
          eks_node_instance_type, vpc_network_cidr, h])

/-- A configuration exercising the recognized option names. -/
def recognizedNameConfig : PulumiConfig :=
  ⟨fun k => if k = "eksNodeInstanceType" then some "m5.large"
    else if k = "vpcNetworkCidr" then some "10.9.0.0/16" else none,
   fun k => if k = "minClusterSize" then some 3 else none⟩

theorem claim9_amended_witness :
    min_cluster_size recognizedNameConfig = 3
    ∧ max_cluster_size recognizedNameConfig = 2
    ∧ eks_node_instance_type recognizedNameConfig = "m5.large"
    ∧ vpc_network_cidr recognizedNameConfig = "10.9.0.0/16" :=
  ⟨claim9_amended.2.1 recognizedNameConfig 3 (by decide),
   claim9_amended.2.2.1 recognizedNameConfig (by decide),
   claim9_amended.2.2.2.2.2.2.2.1 recognizedNameConfig "m5.large" (by decide),
   claim9_amended.2.2.2.2.2.2.2.2.2 recognizedNameConfig "10.9.0.0/16" (by decide)⟩

/-! Claim C10: a document without a metadata key is left untouched by
apply_namespace. -/

/-- C10: apply_namespace never creates a metadata sub-tree; a document
lacking the metadata key passes through unchanged. -/
theorem claim10_no_metadata (fs : List (String × Val))
    (h : hasKey fs "metadata" = false) :
    apply_namespace (.vobj fs) = some (.vobj fs) := by
  simp [apply_namespace, pyIn, h]

theorem claim10_witness :
    apply_namespace (.vobj [("kind", .vstr "ConfigMap"), ("data", .vobj [])])
      = some (.vobj [("kind", .vstr "ConfigMap"), ("data", .vobj [])]) :=
  claim10_no_metadata _ (by decide)

/-! Claim C3: zero manifest directories. -/

/-- C3 counterexample: with no manifest directory for any service the script
logs the error and deploys nothing, but it does not halt - the deploy loop
and the exports still run (exportsEmitted is true), contradicting the
claimed halt. -/
theorem claim3_counterexample :
    (runProgram (fun _ => DirInfo.missing)).errorLogged = true
    ∧ (runProgram (fun _ => DirInfo.missing)).count = 0
    ∧ (runProgram (fun _ => DirInfo.missing)).submitted = []
    ∧ (runProgram (fun _ => DirInfo.missing)).exportsEmitted = true := by
  decide

/-- C3 amended: if zero manifest directories exist for any service, the run
emits an error-level diagnostic and deploys zero services (count 0, nothing
submitted), but execution is not halted: the deploy loop and the exports
still run. -/
theorem claim3_amended (fsys : String → DirInfo)
    (h : services_with_files fsys = []) :
    (runProgram fsys).errorLogged = true
    ∧ (runProgram fsys).count = 0
    ∧ (runProgram fsys).submitted = []
    ∧ (runProgram fsys).exportsEmitted = true := by
  refine ⟨?_, ?_, ?_, rfl⟩
  · simp [runProgram, no_files_error_logged, h]
  · simp [runProgram, count_eq_length_with_files, h]
  · simp [runProgram, submitted_eq_with_files, h]

theorem claim3_amended_witness :
    (runProgram (fun _ => DirInfo.present [])).errorLogged = true
    ∧ (runProgram (fun _ => DirInfo.present [])).count = 0
    ∧ (runProgram (fun _ => DirInfo.present [])).submitted = []
    ∧ (runProgram (fun _ => DirInfo.present [])).exportsEmitted = true :=
  claim3_amended (fun _ => DirInfo.present []) (by decide)

/-! Claim C7: a service with a missing or empty manifest directory is skipped
and the rest of the run continues. -/

/-- C7: a service whose directory is missing or holds no YAML files is
recorded as skipped (the script has no failed state), is never submitted,
contributes nothing to deployed_count (which counts exactly the submitted
services), and every other service with files is still submitted; the run
always reaches the exports. -/
theorem claim7_skip_service (fsys : String → DirInfo) (s : String)
    (_hs : s ∈ services) (hf : hasFiles fsys s = false) :
    service_status fsys s = .skipped
    ∧ s ∉ submitted_services fsys
    ∧ deployed_count fsys = (submitted_services fsys).length
    ∧ (∀ t ∈ services, hasFiles fsys t = true → t ∈ submitted_services fsys)
    ∧ (runProgram fsys).exportsEmitted = true := by
  refine ⟨?_, ?_, ?_, ?_, rfl⟩
  · simp [service_status, hf]
  · rw [submitted_eq_with_files]
    simp [services_with_files, List.mem_filter, hf]
  · rw [submitted_eq_with_files, count_eq_length_with_files]
  · intro t ht hf2
    rw [submitted_eq_with_files]
    simp [services_with_files, List.mem_filter, ht, hf2]

/-- A file system in which only the cart service lacks manifests. -/
def oneMissingFs : String → DirInfo :=
  fun s => if s = "cart" then .missing else .present ["deployment.yaml"]

theorem claim7_witness :
    service_status oneMissingFs "cart" = .skipped
    ∧ "cart" ∉ submitted_services oneMissingFs
    ∧ deployed_count oneMissingFs = (submitted_services oneMissingFs).length
    ∧ (∀ t ∈ services, hasFiles oneMissingFs t = true →
        t ∈ submitted_services oneMissingFs)
    ∧ (runProgram oneMissingFs).exportsEmitted = true :=
  claim7_skip_service oneMissingFs "cart" (by decide) (by decide)

/-! Closed-form characterization of apply_namespace, used by several
proofs. -/

/-- What apply_namespace computes, written as one case split on the document
shape: documents without a metadata key (including strings and lists not
containing "metadata") pass through; dict metadata gets the namespace set
unless already correct; any other metadata shape raises. -/
def nsRewrite : Val → Option Val
  | .vobj fs =>
    match lookupV fs "metadata" with
    | none => some (.vobj fs)
    | some (.vobj ms) =>
      if lookupV ms "namespace" = some (.vstr namespace_name) then some (.vobj fs)
      else some (.vobj (setK fs "metadata"
        (.vobj (setK ms "namespace" (.vstr namespace_name)))))
    | some _ => none
  | .vstr s => if strContains s "metadata" then none else some (.vstr s)
  | .varr items =>
    if items.contains (Val.vstr "metadata") then none else some (.varr items)
  | _ => none

theorem apply_namespace_eq (obj : Val) : apply_namespace obj = nsRewrite obj := by
  cases obj with
  | vstr s =>
    by_cases h : strContains s "metadata"
    · simp [apply_namespace, nsRewrite, pyIn, pyIndex, h]
    · simp [apply_namespace, nsRewrite, pyIn, pyIndex, h]
  | vnum n => simp [apply_namespace, nsRewrite, pyIn]
  | vbool b => simp [apply_namespace, nsRewrite, pyIn]
  | vnull => simp [apply_namespace, nsRewrite, pyIn]
  | varr items =>
    by_cases h : items.contains (Val.vstr "metadata")
    · simp [apply_namespace, nsRewrite, pyIn, pyIndex, h]
    · simp [apply_namespace, nsRewrite, pyIn, pyIndex, h]
  | vobj fs =>
    cases hmd : lookupV fs "metadata" with
    | none =>
      have hk : hasKey fs "metadata" = false := by
        simp [hasKey_eq_isSome, hmd]
      simp [apply_namespace, nsRewrite, pyIn, hk, hmd]
    | some md =>
      have hk : hasKey fs "metadata" = true := by
        simp [hasKey_eq_isSome, hmd]
      cases md with
      | vobj ms =>
        cases hns : lookupV ms "namespace" with
        | none =>
          have hkn : hasKey ms "namespace" = false := by
            simp [hasKey_eq_isSome, hns]
          simp [apply_namespace, nsRewrite, pyIn, pyIndex, pySetKey, hk, hmd,
            hkn, hns]
        | some v0 =>
          have hkn : hasKey ms "namespace" = true := by
            simp [hasKey_eq_isSome, hns]
          by_cases hv : v0 = Val.vstr namespace_name
          · subst hv
            simp [apply_namespace, nsRewrite, pyIn, pyIndex, pySetKey, hk, hmd,
              hkn, hns]
          · simp [apply_namespace, nsRewrite, pyIn, pyIndex, pySetKey, hk, hmd,
              hkn, hns, hv]
      | vstr s => simp [apply_namespace, nsRewrite, pyIn, pyIndex, pySetKey,
          hk, hmd]
      | vnum n => simp [apply_namespace, nsRewrite, pyIn, pyIndex, pySetKey,
          hk, hmd]
      | vbool b => simp [apply_namespace, nsRewrite, pyIn, pyIndex, pySetKey,
          hk, hmd]
      | vnull => simp [apply_namespace, nsRewrite, pyIn, pyIndex, pySetKey,
          hk, hmd]
      | varr its => simp [apply_namespace, nsRewrite, pyIn, pyIndex, pySetKey,
          hk, hmd]

/-- Any successful output of the namespace rewrite is one of its fixpoints. -/
theorem nsRewrite_fixpoint (d r : Val) (h : nsRewrite d = some r) :
    nsRewrite r = some r := by
  cases d with
  | vstr s =>
    by_cases hc : strContains s "metadata"
    · simp [nsRewrite, hc] at h
    · simp [nsRewrite, hc] at h
      subst h
      simp [nsRewrite, hc]
  | vnum n => simp [nsRewrite] at h
  | vbool b => simp [nsRewrite] at h
  | vnull => simp [nsRewrite] at h
  | varr items =>
    by_cases hc : Val.vstr "metadata" ∈ items
    · simp [nsRewrite, hc] at h
    · simp [nsRewrite, hc] at h
      subst h
      simp [nsRewrite, hc]
  | vobj fs =>
    cases hmd : lookupV fs "metadata" with
    | none =>
      simp [nsRewrite, hmd] at h
      subst h
      simp [nsRewrite, hmd]
    | some md =>
      cases md with
      | vobj ms =>
        by_cases hns : lookupV ms "namespace" = some (.vstr namespace_name)
        · simp [nsRewrite, hmd, hns] at h
          subst h
          simp [nsRewrite, hmd, hns]
        · simp [nsRewrite, hmd, hns] at h
          subst h
          simp [nsRewrite, lookup_setK_self]
      | vstr s => simp [nsRewrite, hmd] at h
      | vnum n => simp [nsRewrite, hmd] at h
      | vbool b => simp [nsRewrite, hmd] at h
      | vnull => simp [nsRewrite, hmd] at h
      | varr its => simp [nsRewrite, hmd] at h

/-! Claim C6: idempotence of the namespace-injection rule. -/

/-- C6: applying apply_namespace twice equals applying it once, and a
document whose metadata.namespace already equals the target namespace is
returned unchanged. -/
theorem claim6_namespace_idempotent :
    (∀ d : Val, (apply_namespace d).bind apply_namespace = apply_namespace d)
    ∧ (∀ (fs ms : List (String × Val)),
        lookupV fs "metadata" = some (.vobj ms) →
        lookupV ms "namespace" = some (.vstr namespace_name) →
        apply_namespace (.vobj fs) = some (.vobj fs)) := by
  constructor
  · intro d
    rw [apply_namespace_eq]
    cases h : nsRewrite d with
    | none => rfl
    | some r =>
      simp [apply_namespace_eq, nsRewrite_fixpoint d r h]
  · intro fs ms hmd hns
    rw [apply_namespace_eq]
    simp [nsRewrite, hmd, hns]

/-- Concrete document whose namespace is already the target. -/
def alreadyNamespacedDoc : List (String × Val) :=
  [("kind", .vstr "ConfigMap"),
   ("metadata", .vobj [("name", .vstr "cm"), ("namespace", .vstr "retailstore")])]

theorem claim6_witness :
    (apply_namespace (.vobj [("kind", .vstr "Pod")])).bind apply_namespace
      = apply_namespace (.vobj [("kind", .vstr "Pod")])
    ∧ apply_namespace (.vobj alreadyNamespacedDoc)
      = some (.vobj alreadyNamespacedDoc) :=
  ⟨claim6_namespace_idempotent.1 (.vobj [("kind", .vstr "Pod")]),
   claim6_namespace_idempotent.2 alreadyNamespacedDoc
     [("name", .vstr "cm"), ("namespace", .vstr "retailstore")] (by decide)
     (by decide)⟩

/-! Claim C2: documents of unrecognized kind. -/

/-- The kind the script sees: obj.get("kind", ""). -/
def kindValD (fs : List (String × Val)) : Val :=
  (lookupV fs "kind").getD (.vstr "")

/-- Kinds any transformation branch tests for. -/
def recognizedKindVals : List Val := workloadKindVals ++ [Val.vstr "Service"]

theorem contains_eq_false_of_not_mem (l : List Val) (v : Val) (h : v ∉ l) :
    l.contains v = false := by
  simp_all

/-- C2 counterexample: a ConfigMap (unrecognized kind) with metadata lacking
the namespace is changed by the pipeline - apply_namespace has no kind guard
- so the whole pipeline is not the identity on unrecognized kinds. -/
theorem claim2_counterexample :
    transformPipeline [] (.vobj [("kind", .vstr "ConfigMap"),
        ("metadata", .vobj [("name", .vstr "cm")])])
      = some (.vobj [("kind", .vstr "ConfigMap"),
        ("metadata", .vobj [("name", .vstr "cm"),
          ("namespace", .vstr "retailstore")])])
    ∧ transformPipeline [] (.vobj [("kind", .vstr "ConfigMap"),
        ("metadata", .vobj [("name", .vstr "cm")])])
      ≠ some (.vobj [("kind", .vstr "ConfigMap"),
        ("metadata", .vobj [("name", .vstr "cm")])]) := by
  constructor
  · rfl
  · decide

/-- C2 amended: for a document whose kind is not recognized,
replace_images_with_ecr is the identity and raises nothing, so the pipeline
equals apply_namespace alone; the pipeline is the identity when additionally
the document has no metadata key, or when its metadata.namespace already
equals the target namespace. -/
theorem claim2_amended (table : List (String × String))
    (fs : List (String × Val)) (h : kindValD fs ∉ recognizedKindVals) :
    replace_images_with_ecr table (.vobj fs) = some (.vobj fs)
    ∧ transformPipeline table (.vobj fs) = apply_namespace (.vobj fs)
    ∧ (hasKey fs "metadata" = false →
        transformPipeline table (.vobj fs) = some (.vobj fs)) := by
  have hw : workloadKindVals.contains (kindValD fs) = false := by
    refine contains_eq_false_of_not_mem _ _ (fun hm => h ?_)
    simp [recognizedKindVals]
    exact Or.inl hm
  have hsvc : (kindValD fs == Val.vstr "Service") = false := by
    have : kindValD fs ≠ Val.vstr "Service" := by
      intro he
      exact h (by simp [recognizedKindVals, he])
    simpa using this
  have h1 : replace_images_with_ecr table (.vobj fs) = some (.vobj fs) := by
    simp [replace_images_with_ecr, pyGet, workloadBlock, serviceBlock,
      kindValD] at *
    simp [hw, hsvc]
  refine ⟨h1, ?_, ?_⟩
  · simp [transformPipeline, applyTransformations, h1]
  · intro hmd
    have hl : lookupV fs "metadata" = none := by
      cases hx : lookupV fs "metadata" with
      | none => rfl
      | some v => rw [hasKey_eq_isSome, hx] at hmd; simp at hmd
    simp [transformPipeline, applyTransformations, h1, apply_namespace_eq,
      nsRewrite, hl]

theorem claim2_amended_witness :
    replace_images_with_ecr [("cart", "u")] (.vobj [("kind", .vstr "Secret")])
      = some (.vobj [("kind", .vstr "Secret")])
    ∧ transformPipeline [("cart", "u")] (.vobj [("kind", .vstr "Secret")])
      = some (.vobj [("kind", .vstr "Secret")]) :=
  ⟨(claim2_amended [("cart", "u")] [("kind", .vstr "Secret")] (by decide)).1,
   (claim2_amended [("cart", "u")] [("kind", .vstr "Secret")] (by decide)).2.2
     (by decide)⟩

/-! Claim C8: the Service type override. -/

/-- A Service named with the ui marker but carrying no spec sub-tree. -/
def uiNoSpecFields : List (String × Val) :=
  [("kind", .vstr "Service"), ("metadata", .vobj [("name", .vstr "ui-service")])]

/-- C8 counterexample: for a matching Service without a spec key the
assignment goes into the detached .get default and is lost, so the document
comes out unchanged and carries no spec.type at all, contradicting the
claim that spec.type is always set for every matching Service. -/
theorem claim8_counterexample :
    replace_images_with_ecr [] (.vobj uiNoSpecFields) = some (.vobj uiNoSpecFields)
    ∧ getPath (.vobj uiNoSpecFields) ["spec", "type"] = none :=
  ⟨rfl, rfl⟩

/-- C8 amended: for a Service document whose metadata.name contains the ui
marker (case-insensitively) and which has a spec mapping, the rule forces
spec.type to LoadBalancer regardless of its prior value. -/
theorem claim8_amended (table : List (String × String))
    (fs ms ss : List (String × Val)) (nm : String)
    (hkind : lookupV fs "kind" = some (.vstr "Service"))
    (hmd : lookupV fs "metadata" = some (.vobj ms))
    (hname : lookupV ms "name" = some (.vstr nm))
    (hui : strContains (strLower nm) "ui" = true)
    (hspec : lookupV fs "spec" = some (.vobj ss)) :
    replace_images_with_ecr table (.vobj fs)
      = some (.vobj (setK fs "spec"
          (.vobj (setK ss "type" (.vstr "LoadBalancer"))))) := by
  have hw : Val.vstr "Service" ∉ workloadKindVals := by decide
  simp [replace_images_with_ecr, pyGet, hkind, workloadBlock, hw, serviceBlock,
    pyLowerStr, pySetKey, setAt, hmd, hname, hui, hspec]

/-- The spec example: Service "ui-service" of type ClusterIP. -/
def uiServiceFields : List (String × Val) :=
  [("kind", .vstr "Service"), ("metadata", .vobj [("name", .vstr "ui-service")]),
   ("spec", .vobj [("type", .vstr "ClusterIP")])]

theorem claim8_amended_witness :
    replace_images_with_ecr [] (.vobj uiServiceFields)
      = some (.vobj [("kind", .vstr "Service"),
          ("metadata", .vobj [("name", .vstr "ui-service")]),
          ("spec", .vobj [("type", .vstr "LoadBalancer")])]) := by
  have h := claim8_amended [] uiServiceFields [("name", .vstr "ui-service")]
    [("type", .vstr "ClusterIP")] "ui-service" rfl rfl rfl (by decide) rfl
  exact h

/-! Claim C1: the image-rewrite rule on workload documents. -/

/-- First service of the table (in enumeration order) whose name the image
equals, or whose name followed by a colon the image starts with. -/
def firstMatch (table : List (String × String)) (s : String) : Option String :=
  (table.find? (fun p => s == p.1 || strStarts s (p.1 ++ ":"))).map (fun p => p.2)

theorem findSvc_vstr (table : List (String × String)) (s : String) :
    findSvc table (.vstr s) = some (firstMatch table s) := by
  induction table with
  | nil => simp [findSvc, firstMatch]
  | cons p rest ih =>
    obtain ⟨n, u⟩ := p
    have hval : (Val.vstr s == Val.vstr n) = (s == n) := rfl
    by_cases he : s = n
    · subst he
      simp [findSvc, firstMatch, List.find?]
    · have hbe : (s == n) = false := by simp [he]
      by_cases hst : strStarts s (n ++ ":")
      · simp [findSvc, firstMatch, List.find?, hval, hbe, hst]
      · simp [findSvc, firstMatch, List.find?, hval, hbe, hst] at ih ⊢
        exact ih

/-- A container whose image is a string matching the table gets exactly that
first match written over its image field, and nothing else. -/
theorem rewriteContainer_image (table : List (String × String))
    (cf : List (String × Val)) (s uri : String)
    (himg : lookupV cf "image" = some (.vstr s))
    (hm : firstMatch table s = some uri) :
    rewriteContainer table (.vobj cf)
      = some (.vobj (setK cf "image" (.vstr uri))) := by
  simp [rewriteContainer, pyGet, himg, findSvc_vstr, hm, pySetKey]

/-- A container whose image is a string matching nothing is unchanged. -/
theorem rewriteContainer_nomatch (table : List (String × String))
    (cf : List (String × Val)) (s : String)
    (himg : lookupV cf "image" = some (.vstr s))
    (hm : firstMatch table s = none) :
    rewriteContainer table (.vobj cf) = some (.vobj cf) := by
  simp [rewriteContainer, pyGet, himg, findSvc_vstr, hm]

theorem mapME_get (f : Val → Option Val) (l l' : List Val)
    (h : mapME f l = some l') :
    ∀ (i : Nat) (x : Val), l[i]? = some x →
      ∃ y, f x = some y ∧ l'[i]? = some y := by
  induction l generalizing l' with
  | nil =>
    simp [mapME] at h
    subst h
    intro i x hx
    simp at hx
  | cons a t ih =>
    simp only [mapME] at h
    cases hfa : f a with
    | none => rw [hfa] at h; simp at h
    | some y =>
      rw [hfa] at h
      cases hmt : mapME f t with
      | none => rw [hmt] at h; simp at h
      | some t' =>
        rw [hmt] at h
        simp at h
        subst h
        intro i x hx
        cases i with
        | zero =>
          simp at hx
          subst hx
          exact ⟨y, hfa, by simp⟩
        | succ n =>
          simp at hx
          obtain ⟨z, hz1, hz2⟩ := ih t' hmt n x hx
          exact ⟨z, hz1, by simpa using hz2⟩

theorem chainGet_of_getPath (p : List String) (v w : Val)
    (h : getPath v p = some w) : chainGet v p = some w := by
  induction p generalizing v with
  | nil => simpa [getPath, chainGet] using h
  | cons k rest ih =>
    cases v with
    | vobj fs =>
      cases hl : lookupV fs k with
      | none => simp [getPath, hl] at h
      | some x =>
        simp only [getPath, hl] at h
        simp [chainGet, pyGet, hl, ih x h]
    | vstr s => simp [getPath] at h
    | vnum n => simp [getPath] at h
    | vbool b => simp [getPath] at h
    | vnull => simp [getPath] at h
    | varr its => simp [getPath] at h

theorem getPath_obj_cons (fs : List (String × Val)) (k : String)
    (rest : List String) (w : Val) :
    getPath (.vobj fs) (k :: rest) = some w
      ↔ ∃ x, lookupV fs k = some x ∧ getPath x rest = some w := by
  cases hl : lookupV fs k with
  | none => simp [getPath, hl]
  | some x => simp [getPath, hl]

theorem serviceBlock_not_service (kind : Val) (obj : Val)
    (h : kind ≠ Val.vstr "Service") : serviceBlock kind obj = some obj := by
  have hb : (kind == Val.vstr "Service") = false := by simpa using h
  simp [serviceBlock, hb]

/-- The pod-spec key path as the source computes it, on the kind string. -/
def podPathS (kind : String) : List String :=
  if kind == "CronJob" then ["jobTemplate", "spec", "template", "spec"]
  else ["template", "spec"]

theorem podSpecPath_vstr (kind : String) :
    podSpecPath (.vstr kind) = podPathS kind := rfl

/-- C1: on a workload document (any of the five kinds, CronJob through its
nested job-template path) whose pod spec holds containers and initContainers
lists, replace_images_with_ecr rewrites exactly those two lists in place,
and any entry whose image field equals a service name of the table or starts
with that name and a colon receives that service's URI - the first matching
table entry in enumeration order, written once over the image field. -/
theorem claim1_image_rewrite (table : List (String × String)) (kind : String)
    (fs ps : List (String × Val)) (cs ics cs' ics' : List Val)
    (hkind : lookupV fs "kind" = some (.vstr kind))
    (hw : kind ∈ workloadKinds)
    (hpod : getPath (.vobj fs) ("spec" :: podPathS kind) = some (.vobj ps))
    (hcont : lookupV ps "containers" = some (.varr cs))
    (hinit : lookupV ps "initContainers" = some (.varr ics))
    (hcs : mapME (rewriteContainer table) cs = some cs')
    (hics : mapME (rewriteContainer table) ics = some ics') :
    replace_images_with_ecr table (.vobj fs)
      = some (setAt (setAt (.vobj fs)
            ("spec" :: podPathS kind ++ ["containers"]) (fun _ => .varr cs'))
          ("spec" :: podPathS kind ++ ["initContainers"]) (fun _ => .varr ics'))
    ∧ (∀ (i : Nat) (cf : List (String × Val)) (s uri : String),
        cs[i]? = some (.vobj cf) → lookupV cf "image" = some (.vstr s) →
        firstMatch table s = some uri →
        cs'[i]? = some (.vobj (setK cf "image" (.vstr uri))))
    ∧ (∀ (i : Nat) (cf : List (String × Val)) (s uri : String),
        ics[i]? = some (.vobj cf) → lookupV cf "image" = some (.vstr s) →
        firstMatch table s = some uri →
        ics'[i]? = some (.vobj (setK cf "image" (.vstr uri)))) := by
  have hmem : Val.vstr kind ∈ workloadKindVals :=
    List.mem_map_of_mem Val.vstr hw
  have hnsvc : Val.vstr kind ≠ Val.vstr "Service" := by
    intro he
    have : kind = "Service" := Val.vstr.inj he
    subst this
    exact absurd hw (by decide)
  obtain ⟨spec0, hspec0, hrest⟩ := (getPath_obj_cons fs "spec" _ _).mp hpod
  have hchain : chainGet spec0 (podPathS kind) = some (.vobj ps) :=
    chainGet_of_getPath _ _ _ hrest
  have hsb : ∀ o : Val, serviceBlock (Val.vstr kind) o = some o :=
    fun o => serviceBlock_not_service _ o hnsvc
  refine ⟨?_, ?_, ?_⟩
  · simp only [replace_images_with_ecr, pyGet, hkind, Option.getD_some,
      Option.bind_eq_bind, Option.some_bind, workloadBlock]
    rw [if_pos (by simpa using hmem)]
    rw [podSpecPath_vstr]
    simp [pyGet, hspec0, hchain, hcont, hinit, rewriteSeq, hcs, hics, hsb]
  · intro i cf s uri hi himg hm
    obtain ⟨y, hy1, hy2⟩ := mapME_get _ _ _ hcs i _ hi
    rw [rewriteContainer_image table cf s uri himg hm] at hy1
    cases hy1
    exact hy2
  · intro i cf s uri hi himg hm
    obtain ⟨y, hy1, hy2⟩ := mapME_get _ _ _ hics i _ hi
    rw [rewriteContainer_image table cf s uri himg hm] at hy1
    cases hy1
    exact hy2

/-- The spec example table. -/
def exampleTable : List (String × String) :=
  [("cart", "registry/cart:abc"), ("ui", "registry/ui:def")]

/-- The spec example document: a Deployment whose container image is
cart:local. -/
def exampleDeployment : List (String × Val) :=
  [("kind", .vstr "Deployment"),
   ("metadata", .vobj [("name", .vstr "cart")]),
   ("spec", .vobj [("template", .vobj [("spec", .vobj
     [("containers", .varr [.vobj [("name", .vstr "cart"),
        ("image", .vstr "cart:local")]]),
      ("initContainers", .varr [])])])])]

theorem claim1_witness :
    replace_images_with_ecr exampleTable (.vobj exampleDeployment)
      = some (.vobj
        [("kind", .vstr "Deployment"),
         ("metadata", .vobj [("name", .vstr "cart")]),
         ("spec", .vobj [("template", .vobj [("spec", .vobj
           [("containers", .varr [.vobj [("name", .vstr "cart"),
              ("image", .vstr "registry/cart:abc")]]),
            ("initContainers", .varr [])])])])]) := by
  have h := claim1_image_rewrite exampleTable "Deployment" exampleDeployment
    [("containers", .varr [.vobj [("name", .vstr "cart"),
        ("image", .vstr "cart:local")]]),
     ("initContainers", .varr [])]
    [.vobj [("name", .vstr "cart"), ("image", .vstr "cart:local")]] []
    [.vobj [("name", .vstr "cart"), ("image", .vstr "registry/cart:abc")]] []
    rfl (by decide) rfl rfl rfl rfl rfl
  exact h.1

/-! Closed-form characterization of the type-override rule. -/

/-- What type_override_rule computes, as one case split on the document. -/
def typeRewrite : Val → Option Val
  | .vobj fs =>
    if (lookupV fs "kind").getD (.vstr "") == Val.vstr "Service" then
      match (lookupV fs "metadata").getD (.vobj []) with
      | .vobj ms =>
        match (lookupV ms "name").getD (.vstr "") with
        | .vstr nm =>
          if strContains (strLower nm) "ui" then
            match lookupV fs "spec" with
            | none => some (.vobj fs)
            | some (.vobj ss) =>
              some (.vobj (setK fs "spec"
                (.vobj (setK ss "type" (.vstr "LoadBalancer")))))
            | some _ => none
          else some (.vobj fs)
        | _ => none
      | _ => none
    else some (.vobj fs)
  | _ => none

theorem type_override_eq (d : Val) : type_override_rule d = typeRewrite d := by
  cases d with
  | vstr s => rfl
  | vnum n => rfl
  | vbool b => rfl
  | vnull => rfl
  | varr its => rfl
  | vobj fs =>
    simp only [type_override_rule, pyGet, Option.getD_some, Option.some_bind,
      serviceBlock, typeRewrite]
    by_cases hs : ((lookupV fs "kind").getD (.vstr "") == Val.vstr "Service") = true
    · have hs2 : (lookupV fs "kind").getD (.vstr "") = Val.vstr "Service" := by
        simpa using hs
      cases hm : lookupV fs "metadata" with
      | none =>
        have hco : strContains (strLower "") "ui" = false := rfl
        simp [hs, hs2, hm, pyGet, pyLowerStr, lookupV, hco]
      | some md =>
        cases md with
        | vobj ms =>
          cases hn : lookupV ms "name" with
          | none =>
            have hco : strContains (strLower "") "ui" = false := rfl
            simp [hs, hs2, hm, hn, pyGet, pyLowerStr, hco]
          | some nv =>
            cases nv with
            | vstr nm =>
              by_cases hc : strContains (strLower nm) "ui" = true
              · cases hsp : lookupV fs "spec" with
                | none => simp [hs, hs2, hm, hn, hsp, pyGet, pyLowerStr, pySetKey,
                    setAt, hc]
                | some sv =>
                  cases sv with
                  | vobj ss => simp [hs, hs2, hm, hn, hsp, pyGet, pyLowerStr,
                      pySetKey, setAt, hc]
                  | vstr s2 => simp [hs, hs2, hm, hn, hsp, pyGet, pyLowerStr,
                      pySetKey, hc]
                  | vnum n2 => simp [hs, hs2, hm, hn, hsp, pyGet, pyLowerStr,
                      pySetKey, hc]
                  | vbool b2 => simp [hs, hs2, hm, hn, hsp, pyGet, pyLowerStr,
                      pySetKey, hc]
                  | vnull => simp [hs, hs2, hm, hn, hsp, pyGet, pyLowerStr,
                      pySetKey, hc]
                  | varr a2 => simp [hs, hs2, hm, hn, hsp, pyGet, pyLowerStr,
                      pySetKey, hc]
              · simp [hs, hs2, hm, hn, pyGet, pyLowerStr, hc]
            | vnum n2 => simp [hs, hs2, hm, hn, pyGet, pyLowerStr]
            | vbool b2 => simp [hs, hs2, hm, hn, pyGet, pyLowerStr]
            | vnull => simp [hs, hs2, hm, hn, pyGet, pyLowerStr]
            | vobj o2 => simp [hs, hs2, hm, hn, pyGet, pyLowerStr]
            | varr a2 => simp [hs, hs2, hm, hn, pyGet, pyLowerStr]
        | vstr s2 => simp [hs, hs2, hm, pyGet]
        | vnum n2 => simp [hs, hs2, hm, pyGet]
        | vbool b2 => simp [hs, hs2, hm, pyGet]
        | vnull => simp [hs, hs2, hm, pyGet]
        | varr a2 => simp [hs, hs2, hm, pyGet]
    · have hs2 : ¬ (lookupV fs "kind").getD (.vstr "") = Val.vstr "Service" := by
        simpa using hs
      simp [hs2]

/-! Splitting replace_images_with_ecr into the two spec rules. -/

theorem setAt_obj_head (fs : List (String × Val)) (k : String)
    (rest : List String) (f : Val → Val) :
    ∃ fs', setAt (.vobj fs) (k :: rest) f = .vobj fs'
      ∧ ∀ k2, k2 ≠ k → lookupV fs' k2 = lookupV fs k2 := by
  cases hl : lookupV fs k with
  | none => exact ⟨fs, by simp [setAt, hl], fun k2 _ => rfl⟩
  | some w =>
    refine ⟨setK fs k (setAt w rest f), by simp [setAt, hl], ?_⟩
    intro k2 hne
    exact lookup_setK_ne fs k k2 _ (fun he => hne he.symm)

/-- A successful workload block keeps the document a dict and leaves every
top-level key other than spec untouched. -/
theorem workloadBlock_vobj_shape (table : List (String × String)) (kind : Val)
    (fs : List (String × Val)) (r : Val)
    (h : workloadBlock table kind (.vobj fs) = some r) :
    ∃ fs', r = .vobj fs' ∧ ∀ k2, k2 ≠ "spec" → lookupV fs' k2 = lookupV fs k2 := by
  unfold workloadBlock at h
  by_cases hk : workloadKindVals.contains kind = true
  · rw [if_pos hk] at h
    simp only [Option.bind_eq_bind] at h
    rw [show pyGet (Val.vobj fs) "spec" (.vobj [])
        = some ((lookupV fs "spec").getD (.vobj [])) from rfl] at h
    rw [Option.some_bind] at h
    rw [Option.bind_eq_some] at h
    obtain ⟨ps, hps, h⟩ := h
    rw [Option.bind_eq_some] at h
    obtain ⟨cont, hcont, h⟩ := h
    rw [Option.bind_eq_some] at h
    obtain ⟨nc, hnc, h⟩ := h
    rw [Option.bind_eq_some] at h
    obtain ⟨ini, hini, h⟩ := h
    rw [Option.bind_eq_some] at h
    obtain ⟨ni, hni, h⟩ := h
    simp only [Option.pure_def, Option.some_inj, List.cons_append] at h
    obtain ⟨fs1, he1, hp1⟩ :=
      setAt_obj_head fs "spec" (podSpecPath kind ++ ["containers"]) (fun _ => nc)
    rw [he1] at h
    obtain ⟨fs2, he2, hp2⟩ :=
      setAt_obj_head fs1 "spec" (podSpecPath kind ++ ["initContainers"])
        (fun _ => ni)
    rw [he2] at h
    refine ⟨fs2, h.symm, fun k2 hne => ?_⟩
    rw [hp2 k2 hne, hp1 k2 hne]
  · rw [if_neg hk] at h
    exact ⟨fs, (Option.some_inj.mp h).symm, fun k2 _ => rfl⟩

/-- replace_images_with_ecr is the image-rewrite rule followed by the
type-override rule. -/
theorem replace_split (table : List (String × String)) (d : Val) :
    replace_images_with_ecr table d
      = (image_rewrite_rule table d).bind type_override_rule := by
  cases d with
  | vstr s => rfl
  | vnum n => rfl
  | vbool b => rfl
  | vnull => rfl
  | varr its => rfl
  | vobj fs =>
    simp only [replace_images_with_ecr, image_rewrite_rule, type_override_rule,
      pyGet, Option.getD_some, Option.bind_eq_bind, Option.some_bind]
    cases hwb : workloadBlock table ((lookupV fs "kind").getD (.vstr ""))
        (.vobj fs) with
    | none => rfl
    | some r =>
      obtain ⟨fs', rfl, hpres⟩ := workloadBlock_vobj_shape _ _ _ _ hwb
      have hkk : lookupV fs' "kind" = lookupV fs "kind" :=
        hpres "kind" (by decide)
      simp [pyGet, hkk]

/-! Commutation of the namespace rule with the type-override rule. -/

theorem bind_apply_namespace_eq (o : Option Val) :
    o.bind apply_namespace = o.bind nsRewrite := by
  cases o with
  | none => rfl
  | some v => simp [apply_namespace_eq]

theorem bind_type_override_eq (o : Option Val) :
    o.bind type_override_rule = o.bind typeRewrite := by
  cases o with
  | none => rfl
  | some v => simp [type_override_eq]

set_option maxHeartbeats 1000000 in
theorem typeRewrite_nsRewrite_comm (e : Val) :
    (typeRewrite e).bind nsRewrite = (nsRewrite e).bind typeRewrite := by
  cases e with
  | vstr s =>
    by_cases hc : strContains s "metadata"
    · simp [typeRewrite, nsRewrite, hc]
    · simp [typeRewrite, nsRewrite, hc]
  | vnum n => simp [typeRewrite, nsRewrite]
  | vbool b => simp [typeRewrite, nsRewrite]
  | vnull => simp [typeRewrite, nsRewrite]
  | varr its =>
    by_cases hc : Val.vstr "metadata" ∈ its
    · simp [typeRewrite, nsRewrite, hc]
    · simp [typeRewrite, nsRewrite, hc]
  | vobj fs =>
    by_cases hsvc : (lookupV fs "kind").getD (.vstr "") = Val.vstr "Service"
    · cases hm : lookupV fs "metadata" with
      | none =>
        have hco : strContains (strLower "") "ui" = false := rfl
        simp [typeRewrite, nsRewrite, hsvc, hm, hco, lookupV]
      | some md =>
        cases md with
        | vobj ms =>
          have hkind_pres : ∀ X : Val,
              (lookupV (setK fs "metadata" X) "kind").getD (.vstr "")
              = Val.vstr "Service" := by
            intro X
            rw [lookup_setK_ne fs "metadata" "kind" X (by decide)]
            exact hsvc
          have hset_name : lookupV (setK ms "namespace" (.vstr namespace_name))
              "name" = lookupV ms "name" :=
            lookup_setK_ne _ _ _ _ (by decide)
          have hset_spec : ∀ X : Val,
              lookupV (setK fs "metadata" X) "spec" = lookupV fs "spec" :=
            fun X => lookup_setK_ne _ _ _ _ (by decide)
          have hset_md : ∀ X : Val,
              lookupV (setK fs "spec" X) "metadata" = lookupV fs "metadata" :=
            fun X => lookup_setK_ne _ _ _ _ (by decide)
          cases hn : lookupV ms "name" with
          | none =>
            have hco : strContains (strLower "") "ui" = false := rfl
            by_cases hns : lookupV ms "namespace" = some (.vstr namespace_name)
            · simp [typeRewrite, nsRewrite, hsvc, hm, hn, hns, hco]
            · simp [typeRewrite, nsRewrite, hsvc, hm, hn, hns, hco,
                hkind_pres, lookup_setK_self, hset_name, hset_spec, hset_md]
          | some nv =>
            cases nv with
            | vstr nm =>
              by_cases hc : strContains (strLower nm) "ui" = true
              · cases hsp : lookupV fs "spec" with
                | none =>
                  by_cases hns : lookupV ms "namespace" = some (.vstr namespace_name)
                  · simp [typeRewrite, nsRewrite, hsvc, hm, hn, hsp, hns, hc]
                  · simp [typeRewrite, nsRewrite, hsvc, hm, hn, hsp, hns, hc,
                      hkind_pres, lookup_setK_self, hset_name, hset_spec, hset_md]
                | some sv =>
                  cases sv with
                  | vobj ss =>
                    by_cases hns : lookupV ms "namespace" = some (.vstr namespace_name)
                    · simp [typeRewrite, nsRewrite, hsvc, hm, hn, hsp, hns, hc,
                        lookup_setK_ne, lookup_setK_self]
                    · have hsp2 : ∀ X : Val, lookupV (setK fs "metadata" X) "spec"
                          = some (.vobj ss) := by
                        intro X
                        rw [lookup_setK_ne fs "metadata" "spec" X (by decide)]
                        exact hsp
                      have hm2 : ∀ X : Val, lookupV (setK fs "spec" X) "metadata"
                          = some (.vobj ms) := by
                        intro X
                        rw [lookup_setK_ne fs "spec" "metadata" X (by decide)]
                        exact hm
                      have hkey : hasKey fs "spec" = true := by
                        simp [hasKey_eq_isSome, hsp]
                      simp [typeRewrite, nsRewrite, hsvc, hm, hn, hsp, hns, hc,
                        hkind_pres, lookup_setK_self, hset_name, hset_spec,
                        hset_md, hsp2, hm2]
                      rw [setK_comm fs "spec" "metadata" _ _ (by decide) hkey]
                  | vstr s2 =>
                    by_cases hns : lookupV ms "namespace" = some (.vstr namespace_name)
                    · simp [typeRewrite, nsRewrite, hsvc, hm, hn, hsp, hns, hc]
                    · simp [typeRewrite, nsRewrite, hsvc, hm, hn, hsp, hns, hc,
                        hkind_pres, lookup_setK_self, hset_name, hset_spec, hset_md]
                  | vnum n2 =>
                    by_cases hns : lookupV ms "namespace" = some (.vstr namespace_name)
                    · simp [typeRewrite, nsRewrite, hsvc, hm, hn, hsp, hns, hc]
                    · simp [typeRewrite, nsRewrite, hsvc, hm, hn, hsp, hns, hc,
                        hkind_pres, lookup_setK_self, hset_name, hset_spec, hset_md]
                  | vbool b2 =>
                    by_cases hns : lookupV ms "namespace" = some (.vstr namespace_name)
                    · simp [typeRewrite, nsRewrite, hsvc, hm, hn, hsp, hns, hc]
                    · simp [typeRewrite, nsRewrite, hsvc, hm, hn, hsp, hns, hc,
                        hkind_pres, lookup_setK_self, hset_name, hset_spec, hset_md]
                  | vnull =>
                    by_cases hns : lookupV ms "namespace" = some (.vstr namespace_name)
                    · simp [typeRewrite, nsRewrite, hsvc, hm, hn, hsp, hns, hc]
                    · simp [typeRewrite, nsRewrite, hsvc, hm, hn, hsp, hns, hc,
                        hkind_pres, lookup_setK_self, hset_name, hset_spec, hset_md]
                  | varr a2 =>
                    by_cases hns : lookupV ms "namespace" = some (.vstr namespace_name)
                    · simp [typeRewrite, nsRewrite, hsvc, hm, hn, hsp, hns, hc]
                    · simp [typeRewrite, nsRewrite, hsvc, hm, hn, hsp, hns, hc,
                        hkind_pres, lookup_setK_self, hset_name, hset_spec, hset_md]
              · by_cases hns : lookupV ms "namespace" = some (.vstr namespace_name)
                · simp [typeRewrite, nsRewrite, hsvc, hm, hn, hns, hc]
                · simp [typeRewrite, nsRewrite, hsvc, hm, hn, hns, hc,
                    hkind_pres, lookup_setK_self, hset_name, hset_spec, hset_md]
            | vnum n2 =>
              by_cases hns : lookupV ms "namespace" = some (.vstr namespace_name)
              · simp [typeRewrite, nsRewrite, hsvc, hm, hn, hns]
              · simp [typeRewrite, nsRewrite, hsvc, hm, hn, hns,
                  hkind_pres, lookup_setK_self, hset_name, hset_spec, hset_md]
            | vbool b2 =>
              by_cases hns : lookupV ms "namespace" = some (.vstr namespace_name)
              · simp [typeRewrite, nsRewrite, hsvc, hm, hn, hns]
              · simp [typeRewrite, nsRewrite, hsvc, hm, hn, hns,
                  hkind_pres, lookup_setK_self, hset_name, hset_spec, hset_md]
            | vnull =>
              by_cases hns : lookupV ms "namespace" = some (.vstr namespace_name)
              · simp [typeRewrite, nsRewrite, hsvc, hm, hn, hns]
              · simp [typeRewrite, nsRewrite, hsvc, hm, hn, hns,
                  hkind_pres, lookup_setK_self, hset_name, hset_spec, hset_md]
            | vobj o2 =>
              by_cases hns : lookupV ms "namespace" = some (.vstr namespace_name)
              · simp [typeRewrite, nsRewrite, hsvc, hm, hn, hns]
              · simp [typeRewrite, nsRewrite, hsvc, hm, hn, hns,
                  hkind_pres, lookup_setK_self, hset_name, hset_spec, hset_md]
            | varr a2 =>
              by_cases hns : lookupV ms "namespace" = some (.vstr namespace_name)
              · simp [typeRewrite, nsRewrite, hsvc, hm, hn, hns]
              · simp [typeRewrite, nsRewrite, hsvc, hm, hn, hns,
                  hkind_pres, lookup_setK_self, hset_name, hset_spec, hset_md]
        | vstr s2 => simp [typeRewrite, nsRewrite, hsvc, hm]
        | vnum n2 => simp [typeRewrite, nsRewrite, hsvc, hm]
        | vbool b2 => simp [typeRewrite, nsRewrite, hsvc, hm]
        | vnull => simp [typeRewrite, nsRewrite, hsvc, hm]
        | varr a2 => simp [typeRewrite, nsRewrite, hsvc, hm]
    · cases hr : nsRewrite (.vobj fs) with
      | none => simp [typeRewrite, hsvc, hr]
      | some r =>
        have hshape : r = .vobj fs ∨ ∃ X, r = .vobj (setK fs "metadata" X) := by
          cases hm : lookupV fs "metadata" with
          | none =>
            simp [nsRewrite, hm] at hr
            exact Or.inl hr.symm
          | some md =>
            cases md with
            | vobj ms =>
              by_cases hns : lookupV ms "namespace" = some (.vstr namespace_name)
              · simp [nsRewrite, hm, hns] at hr
                exact Or.inl hr.symm
              · simp [nsRewrite, hm, hns] at hr
                exact Or.inr ⟨_, hr.symm⟩
            | vstr s2 => simp [nsRewrite, hm] at hr
            | vnum n2 => simp [nsRewrite, hm] at hr
            | vbool b2 => simp [nsRewrite, hm] at hr
            | vnull => simp [nsRewrite, hm] at hr
            | varr a2 => simp [nsRewrite, hm] at hr
        rcases hshape with rfl | ⟨X, rfl⟩
        · simp [typeRewrite, hsvc, hr]
        · have hk2 : (lookupV (setK fs "metadata" X) "kind").getD (.vstr "")
              ≠ Val.vstr "Service" := by
            rw [lookup_setK_ne fs "metadata" "kind" X (by decide)]
            exact hsvc
          simp [typeRewrite, hsvc, hr, hk2]

/-- The namespace-injection rule and the type-override rule commute. -/
theorem ns_type_commute (e : Val) :
    (type_override_rule e).bind apply_namespace
      = (apply_namespace e).bind type_override_rule := by
  rw [type_override_eq, apply_namespace_eq, bind_apply_namespace_eq,
    bind_type_override_eq]
  exact typeRewrite_nsRewrite_comm e

/-! Claim C4: the implemented callback list equals the reference
composition. -/

/-- C4: for every document, applying the callback list
[replace_images_with_ecr, apply_namespace] in order is the same as the
reference composition image-rewrite, then namespace-injection, then
type-override. -/
theorem claim4_pipeline_order (table : List (String × String)) (d : Val) :
    transformPipeline table d = referencePipeline table d := by
  have h1 : transformPipeline table d
      = (replace_images_with_ecr table d).bind apply_namespace := by
    simp [transformPipeline, applyTransformations, List.foldlM]
  rw [h1, replace_split, Option.bind_assoc, referencePipeline]
  simp only [ns_type_commute]

/-! Claim C5: frame property.  The mask functions erase exactly the fields
the rules are allowed to change (container/init-container image fields along
both pod paths, metadata.namespace, spec.type); the frame theorem states
that the pipeline leaves the masked document unchanged. -/

def maskCont : Val → Val
  | .vobj cf => .vobj (removeK cf "image")
  | v => v

def maskConts : Val → Val
  | .varr items => .varr (items.map maskCont)
  | v => v

def maskPodSpec : Val → Val
  | .vobj ps => .vobj (ps.map (fun p =>
      if p.1 = "containers" ∨ p.1 = "initContainers"
      then (p.1, maskConts p.2) else p))
  | v => v

def maskTemplate : Val → Val
  | .vobj ts => .vobj (ts.map (fun p =>
      if p.1 = "spec" then (p.1, maskPodSpec p.2) else p))
  | v => v

def maskJobSpec : Val → Val
  | .vobj js => .vobj (js.map (fun p =>
      if p.1 = "template" then (p.1, maskTemplate p.2) else p))
  | v => v

def maskJobTemplate : Val → Val
  | .vobj js => .vobj (js.map (fun p =>
      if p.1 = "spec" then (p.1, maskJobSpec p.2) else p))
  | v => v

def maskMeta : Val → Val
  | .vobj ms => .vobj (removeK ms "namespace")
  | v => v

def maskSpec : Val → Val
  | .vobj ss => .vobj ((removeK ss "type").map (fun p =>
      if p.1 = "template" then (p.1, maskTemplate p.2)
      else if p.1 = "jobTemplate" then (p.1, maskJobTemplate p.2) else p))
  | v => v

def maskAll : Val → Val
  | .vobj fs => .vobj (fs.map (fun p =>
      if p.1 = "metadata" then (p.1, maskMeta p.2)
      else if p.1 = "spec" then (p.1, maskSpec p.2) else p))
  | v => v

/-- The condition under which the Service-type override fires, read off the
document: kind Service and a dict metadata whose name is a string containing
ui case-insensitively. -/
def uiMatch : Val → Bool
  | .vobj fs =>
    ((lookupV fs "kind").getD (.vstr "") == Val.vstr "Service") &&
    (match (lookupV fs "metadata").getD (.vobj []) with
     | .vobj ms =>
       (match (lookupV ms "name").getD (.vstr "") with
        | .vstr nm => strContains (strLower nm) "ui"
        | _ => false)
     | _ => false)
  | _ => false

/-! Path lemmas for setAt. -/

theorem setAt_id (p : List String) (d : Val) (f : Val → Val)
    (h : getPath d p = none) : setAt d p f = d := by
  induction p generalizing d with
  | nil => simp [getPath] at h
  | cons k rest ih =>
    cases d with
    | vobj fs =>
      cases hl : lookupV fs k with
      | none => simp [setAt, hl]
      | some w =>
        simp only [getPath, hl] at h
        simp [setAt, hl, ih w h, setK_lookup_self fs k w hl]
    | vstr s => rfl
    | vnum n => rfl
    | vbool b => rfl
    | vnull => rfl
    | varr its => rfl

theorem getPath_setAt_ne (a b : String) (qs ts : List String) (v : Val)
    (f : Val → Val) (hab : a ≠ b) :
    getPath (setAt v (a :: qs) f) (b :: ts) = getPath v (b :: ts) := by
  cases v with
  | vobj fs =>
    cases hl : lookupV fs a with
    | none => simp [setAt, hl]
    | some w =>
      simp only [setAt, hl]
      simp only [getPath, lookup_setK_ne fs a b _ hab]
  | vstr s => rfl
  | vnum n => rfl
  | vbool b2 => rfl
  | vnull => rfl
  | varr its => rfl

theorem getPath_setAt_push (k : String) (qs ts : List String) (v : Val)
    (f : Val → Val)
    (h : ∀ w : Val, getPath (setAt w qs f) ts = getPath w ts) :
    getPath (setAt v (k :: qs) f) (k :: ts) = getPath v (k :: ts) := by
  cases v with
  | vobj fs =>
    cases hl : lookupV fs k with
    | none => simp [setAt, hl]
    | some w =>
      simp only [setAt, hl]
      simp only [getPath, lookup_setK_self, hl]
      exact h w
  | vstr s => rfl
  | vnum n => rfl
  | vbool b2 => rfl
  | vnull => rfl
  | varr its => rfl

theorem getPath_setAt_sibling (q : List String) (k1 k2 : String)
    (hk : k1 ≠ k2) (v : Val) (f : Val → Val) :
    getPath (setAt v (q ++ [k1]) f) (q ++ [k2]) = getPath v (q ++ [k2]) := by
  induction q generalizing v with
  | nil => exact getPath_setAt_ne k1 k2 [] [] v f hk
  | cons k q ih =>
    simp only [List.cons_append]
    exact getPath_setAt_push k (q ++ [k1]) (q ++ [k2]) v f (fun w => ih w)

theorem getPath_cons_vobj (v : Val) (k : String) (rest : List String) (w : Val)
    (h : getPath v (k :: rest) = some w) :
    ∃ gs : List (String × Val), v = .vobj gs := by
  cases v with
  | vobj gs => exact ⟨gs, rfl⟩
  | vstr s => simp [getPath] at h
  | vnum n => simp [getPath] at h
  | vbool b => simp [getPath] at h
  | vnull => simp [getPath] at h
  | varr its => simp [getPath] at h

/-! Container rewrites preserve everything but the image field. -/

theorem rewriteContainer_mask (table : List (String × String)) (c c2 : Val)
    (h : rewriteContainer table c = some c2) : maskCont c2 = maskCont c := by
  cases c with
  | vobj cf =>
    simp only [rewriteContainer, pyGet, Option.bind_eq_bind, Option.some_bind] at h
    cases hf : findSvc table ((lookupV cf "image").getD (.vstr "")) with
    | none => rw [hf] at h; simp at h
    | some res =>
      rw [hf] at h
      cases res with
      | none =>
        simp at h
        subst h
        rfl
      | some uri =>
        simp only [Option.some_bind, pySetKey, Option.some_inj] at h
        subst h
        simp [maskCont, removeK_setK_self]
  | vstr s => simp [rewriteContainer, pyGet] at h
  | vnum n => simp [rewriteContainer, pyGet] at h
  | vbool b => simp [rewriteContainer, pyGet] at h
  | vnull => simp [rewriteContainer, pyGet] at h
  | varr its => simp [rewriteContainer, pyGet] at h

theorem mapME_mask (table : List (String × String)) (l l2 : List Val)
    (h : mapME (rewriteContainer table) l = some l2) :
    l2.map maskCont = l.map maskCont := by
  induction l generalizing l2 with
  | nil =>
    simp [mapME] at h
    subst h
    rfl
  | cons a t ih =>
    simp only [mapME, Option.bind_eq_bind] at h
    cases ha : rewriteContainer table a with
    | none => rw [ha] at h; simp at h
    | some y =>
      rw [ha] at h
      cases hm : mapME (rewriteContainer table) t with
      | none => rw [hm] at h; simp at h
      | some t2 =>
        rw [hm] at h
        simp at h
        subst h
        simp [List.map_cons, rewriteContainer_mask table a y ha, ih t2 hm]

theorem rewriteSeq_mask (table : List (String × String)) (c nc : Val)
    (h : rewriteSeq table c = some nc) : maskConts nc = maskConts c := by
  cases c with
  | varr items =>
    simp only [rewriteSeq] at h
    cases hm : mapME (rewriteContainer table) items with
    | none => rw [hm] at h; simp at h
    | some its2 =>
      rw [hm] at h
      simp at h
      subst h
      simp [maskConts, mapME_mask table items its2 hm]
  | vobj fs =>
    cases fs with
    | nil => simp [rewriteSeq] at h; subst h; rfl
    | cons p t => simp [rewriteSeq] at h
  | vstr s =>
    by_cases he : s.isEmpty
    · simp [rewriteSeq, he] at h
      subst h
      rfl
    · simp [rewriteSeq, he] at h
  | vnum n => simp [rewriteSeq] at h
  | vbool b => simp [rewriteSeq] at h
  | vnull => simp [rewriteSeq] at h

/-! Writing a mask-equivalent container list at either pod path leaves the
masked document unchanged. -/

theorem maskAll_write_tmpl (fs : List (String × Val)) (ck : String)
    (hck : ck = "containers" ∨ ck = "initContainers") (w v0 : Val)
    (hv : getPath (.vobj fs) ["spec", "template", "spec", ck] = some v0)
    (hw : maskConts w = maskConts v0) :
    maskAll (setAt (.vobj fs) ["spec", "template", "spec", ck] (fun _ => w))
      = maskAll (.vobj fs) := by
  obtain ⟨sv, hs1, hv⟩ := (getPath_obj_cons fs "spec" _ _).mp hv
  obtain ⟨ss, rfl⟩ := getPath_cons_vobj _ _ _ _ hv
  obtain ⟨tv, ht1, hv⟩ := (getPath_obj_cons ss "template" _ _).mp hv
  obtain ⟨ts, rfl⟩ := getPath_cons_vobj _ _ _ _ hv
  obtain ⟨pv, hp1, hv⟩ := (getPath_obj_cons ts "spec" _ _).mp hv
  obtain ⟨ps, rfl⟩ := getPath_cons_vobj _ _ _ _ hv
  obtain ⟨cv, hc1, hv⟩ := (getPath_obj_cons ps ck _ _).mp hv
  simp only [getPath, Option.some_inj] at hv
  subst hv
  have hset : setAt (.vobj fs) ["spec", "template", "spec", ck] (fun _ => w)
      = .vobj (setK fs "spec" (.vobj (setK ss "template"
          (.vobj (setK ts "spec" (.vobj (setK ps ck w))))))) := by
    simp [setAt, hs1, ht1, hp1, hc1]
  rw [hset]
  have h4 : maskPodSpec (.vobj (setK ps ck w)) = maskPodSpec (.vobj ps) := by
    simp only [maskPodSpec]
    congr 1
    apply map_setK_compat _ _ _ _ _ hc1
    rcases hck with rfl | rfl
    · simp [hw]
    · simp [hw]
  have h3 : maskTemplate (.vobj (setK ts "spec" (.vobj (setK ps ck w))))
      = maskTemplate (.vobj ts) := by
    simp only [maskTemplate]
    congr 1
    apply map_setK_compat _ _ _ _ _ hp1
    simp [h4]
  have h2 : maskSpec (.vobj (setK ss "template"
      (.vobj (setK ts "spec" (.vobj (setK ps ck w)))))) = maskSpec (.vobj ss) := by
    simp only [maskSpec]
    rw [removeK_setK_ne ss "template" "type" _ (by decide)]
    congr 1
    apply map_setK_compat _ _ _ _ _
      (by rw [lookup_removeK_ne ss "type" "template" (by decide)]; exact ht1)
    simp [h3]
  simp only [maskAll]
  congr 1
  apply map_setK_compat _ _ _ _ _ hs1
  simp [h2]

theorem maskAll_write_jobt (fs : List (String × Val)) (ck : String)
    (hck : ck = "containers" ∨ ck = "initContainers") (w v0 : Val)
    (hv : getPath (.vobj fs)
      ["spec", "jobTemplate", "spec", "template", "spec", ck] = some v0)
    (hw : maskConts w = maskConts v0) :
    maskAll (setAt (.vobj fs)
        ["spec", "jobTemplate", "spec", "template", "spec", ck] (fun _ => w))
      = maskAll (.vobj fs) := by
  obtain ⟨sv, hs1, hv⟩ := (getPath_obj_cons fs "spec" _ _).mp hv
  obtain ⟨ss, rfl⟩ := getPath_cons_vobj _ _ _ _ hv
  obtain ⟨jv, hj1, hv⟩ := (getPath_obj_cons ss "jobTemplate" _ _).mp hv
  obtain ⟨jt, rfl⟩ := getPath_cons_vobj _ _ _ _ hv
  obtain ⟨jsv, hj2, hv⟩ := (getPath_obj_cons jt "spec" _ _).mp hv
  obtain ⟨jts, rfl⟩ := getPath_cons_vobj _ _ _ _ hv
  obtain ⟨tv, ht1, hv⟩ := (getPath_obj_cons jts "template" _ _).mp hv
  obtain ⟨ts, rfl⟩ := getPath_cons_vobj _ _ _ _ hv
  obtain ⟨pv, hp1, hv⟩ := (getPath_obj_cons ts "spec" _ _).mp hv
  obtain ⟨ps, rfl⟩ := getPath_cons_vobj _ _ _ _ hv
  obtain ⟨cv, hc1, hv⟩ := (getPath_obj_cons ps ck _ _).mp hv
  simp only [getPath, Option.some_inj] at hv
  subst hv
  have hset : setAt (.vobj fs)
      ["spec", "jobTemplate", "spec", "template", "spec", ck] (fun _ => w)
      = .vobj (setK fs "spec" (.vobj (setK ss "jobTemplate"
          (.vobj (setK jt "spec" (.vobj (setK jts "template"
            (.vobj (setK ts "spec" (.vobj (setK ps ck w))))))))))) := by
    simp [setAt, hs1, hj1, hj2, ht1, hp1, hc1]
  rw [hset]
  have h6 : maskPodSpec (.vobj (setK ps ck w)) = maskPodSpec (.vobj ps) := by
    simp only [maskPodSpec]
    congr 1
    apply map_setK_compat _ _ _ _ _ hc1
    rcases hck with rfl | rfl
    · simp [hw]
    · simp [hw]
  have h5 : maskTemplate (.vobj (setK ts "spec" (.vobj (setK ps ck w))))
      = maskTemplate (.vobj ts) := by
    simp only [maskTemplate]
    congr 1
    apply map_setK_compat _ _ _ _ _ hp1
    simp [h6]
  have h4 : maskJobSpec (.vobj (setK jts "template"
      (.vobj (setK ts "spec" (.vobj (setK ps ck w)))))) = maskJobSpec (.vobj jts) := by
    simp only [maskJobSpec]
    congr 1
    apply map_setK_compat _ _ _ _ _ ht1
    simp [h5]
  have h3 : maskJobTemplate (.vobj (setK jt "spec" (.vobj (setK jts "template"
      (.vobj (setK ts "spec" (.vobj (setK ps ck w)))))))) = maskJobTemplate (.vobj jt) := by
    simp only [maskJobTemplate]
    congr 1
    apply map_setK_compat _ _ _ _ _ hj2
    simp [h4]
  have h2 : maskSpec (.vobj (setK ss "jobTemplate" (.vobj (setK jt "spec"
      (.vobj (setK jts "template" (.vobj (setK ts "spec"
        (.vobj (setK ps ck w)))))))))) = maskSpec (.vobj ss) := by
    simp only [maskSpec]
    rw [removeK_setK_ne ss "jobTemplate" "type" _ (by decide)]
    congr 1
    apply map_setK_compat _ _ _ _ _
      (by rw [lookup_removeK_ne ss "type" "jobTemplate" (by decide)]; exact hj1)
    simp [h3]
  simp only [maskAll]
  congr 1
  apply map_setK_compat _ _ _ _ _ hs1
  simp [h2]

theorem getPath_append (p q : List String) (v : Val) :
    getPath v (p ++ q) = (getPath v p).bind (fun x => getPath x q) := by
  induction p generalizing v with
  | nil => simp [getPath]
  | cons k rest ih =>
    cases v with
    | vobj fs =>
      cases hl : lookupV fs k with
      | none => simp [getPath, hl]
      | some w => simp [getPath, hl, ih w]
    | vstr s => simp [getPath]
    | vnum n => simp [getPath]
    | vbool b => simp [getPath]
    | vnull => simp [getPath]
    | varr its => simp [getPath]

/-- Dispatcher over the two pod paths for the mask-write lemma. -/
theorem maskAll_write_pod (fs : List (String × Val)) (kind : Val) (ck : String)
    (hck : ck = "containers" ∨ ck = "initContainers") (w v0 : Val)
    (hv : getPath (.vobj fs) ("spec" :: (podSpecPath kind ++ [ck])) = some v0)
    (hw : maskConts w = maskConts v0) :
    maskAll (setAt (.vobj fs) ("spec" :: (podSpecPath kind ++ [ck])) (fun _ => w))
      = maskAll (.vobj fs) := by
  by_cases hcj : (kind == Val.vstr "CronJob") = true
  · have hp : podSpecPath kind = ["jobTemplate", "spec", "template", "spec"] := by
      simp [podSpecPath, hcj]
    rw [hp] at hv ⊢
    simp only [List.cons_append, List.nil_append] at hv ⊢
    exact maskAll_write_jobt fs ck hck w v0 hv hw
  · have hp : podSpecPath kind = ["template", "spec"] := by
      simp [podSpecPath, hcj]
    rw [hp] at hv ⊢
    simp only [List.cons_append, List.nil_append] at hv ⊢
    exact maskAll_write_tmpl fs ck hck w v0 hv hw

/-- A write at either pod path does not move kind, metadata, or spec.type. -/
theorem preserve_write_pod (v : Val) (kind : Val) (ck : String) (f : Val → Val) :
    getPath (setAt v ("spec" :: (podSpecPath kind ++ [ck])) f) ["kind"]
        = getPath v ["kind"]
    ∧ getPath (setAt v ("spec" :: (podSpecPath kind ++ [ck])) f) ["metadata"]
        = getPath v ["metadata"]
    ∧ getPath (setAt v ("spec" :: (podSpecPath kind ++ [ck])) f) ["spec", "type"]
        = getPath v ["spec", "type"] := by
  refine ⟨getPath_setAt_ne _ _ _ _ _ _ (by decide),
    getPath_setAt_ne _ _ _ _ _ _ (by decide), ?_⟩
  apply getPath_setAt_push
  intro w
  by_cases hcj : (kind == Val.vstr "CronJob") = true
  · have hp : podSpecPath kind = ["jobTemplate", "spec", "template", "spec"] := by
      simp [podSpecPath, hcj]
    rw [hp]
    simp only [List.cons_append, List.nil_append]
    exact getPath_setAt_ne _ _ _ _ _ _ (by decide)
  · have hp : podSpecPath kind = ["template", "spec"] := by
      simp [podSpecPath, hcj]
    rw [hp]
    simp only [List.cons_append, List.nil_append]
    exact getPath_setAt_ne _ _ _ _ _ _ (by decide)

/-- Two writes under the same pod path but at different final keys do not see
each other. -/
theorem getPath_setAt_sibling_pod (kind : Val) (k1 k2 : String) (hk : k1 ≠ k2)
    (v : Val) (f : Val → Val) :
    getPath (setAt v ("spec" :: (podSpecPath kind ++ [k1])) f)
        ("spec" :: (podSpecPath kind ++ [k2]))
      = getPath v ("spec" :: (podSpecPath kind ++ [k2])) := by
  have h := getPath_setAt_sibling ("spec" :: podSpecPath kind) k1 k2 hk v f
  simpa [List.cons_append] using h

/-- The container list the block read (through the defaulted chain) is the
value at the corresponding full path whenever that path is fully present. -/
theorem read_connect (fs : List (String × Val)) (kind : Val) (ck : String)
    (ps cv v0 : Val)
    (hps : chainGet ((lookupV fs "spec").getD (.vobj [])) (podSpecPath kind)
        = some ps)
    (hread : pyGet ps ck (.varr []) = some cv)
    (hgp : getPath (.vobj fs) ("spec" :: (podSpecPath kind ++ [ck])) = some v0) :
    cv = v0 := by
  obtain ⟨sv, hs1, hrest⟩ := (getPath_obj_cons fs "spec" _ _).mp hgp
  rw [getPath_append] at hrest
  cases hpd : getPath sv (podSpecPath kind) with
  | none => rw [hpd] at hrest; simp at hrest
  | some pv =>
    rw [hpd] at hrest
    simp only [Option.some_bind] at hrest
    have hcg : chainGet sv (podSpecPath kind) = some pv :=
      chainGet_of_getPath _ _ _ hpd
    rw [hs1] at hps
    simp only [Option.getD_some] at hps
    rw [hcg] at hps
    have hpp : ps = pv := by
      injection hps.symm
    subst hpp
    obtain ⟨pfs, rfl⟩ := getPath_cons_vobj _ _ _ _ hrest
    obtain ⟨x, hx, hgp0⟩ := (getPath_obj_cons pfs ck _ _).mp hrest
    simp only [getPath, Option.some_inj] at hgp0
    subst hgp0
    simp only [pyGet, hx, Option.getD_some, Option.some_inj] at hread
    exact hread.symm

/-- Frame property of the workload block: the masked document is unchanged,
the document stays a dict, and kind, metadata, spec.type are untouched. -/
theorem workloadBlock_frame (table : List (String × String)) (kind : Val)
    (fs : List (String × Val)) (r : Val)
    (h : workloadBlock table kind (.vobj fs) = some r) :
    maskAll r = maskAll (.vobj fs)
    ∧ ∃ fs', r = .vobj fs'
        ∧ lookupV fs' "kind" = lookupV fs "kind"
        ∧ lookupV fs' "metadata" = lookupV fs "metadata"
        ∧ getPath r ["spec", "type"] = getPath (.vobj fs) ["spec", "type"] := by
  unfold workloadBlock at h
  by_cases hk : workloadKindVals.contains kind = true
  · rw [if_pos hk] at h
    simp only [Option.bind_eq_bind] at h
    rw [show pyGet (Val.vobj fs) "spec" (.vobj [])
        = some ((lookupV fs "spec").getD (.vobj [])) from rfl] at h
    rw [Option.some_bind] at h
    rw [Option.bind_eq_some] at h
    obtain ⟨ps, hps, h⟩ := h
    rw [Option.bind_eq_some] at h
    obtain ⟨cont, hcont, h⟩ := h
    rw [Option.bind_eq_some] at h
    obtain ⟨nc, hnc, h⟩ := h
    rw [Option.bind_eq_some] at h
    obtain ⟨ini, hini, h⟩ := h
    rw [Option.bind_eq_some] at h
    obtain ⟨ni, hni, h⟩ := h
    simp only [Option.pure_def, Option.some_inj, List.cons_append] at h
    subst h
    obtain ⟨xfs, hX, hXpres⟩ :=
      setAt_obj_head fs "spec" (podSpecPath kind ++ ["containers"]) (fun _ => nc)
    have hmask1 : maskAll (setAt (.vobj fs)
        ("spec" :: (podSpecPath kind ++ ["containers"])) (fun _ => nc))
        = maskAll (.vobj fs) := by
      cases hgp : getPath (.vobj fs)
          ("spec" :: (podSpecPath kind ++ ["containers"])) with
      | none => rw [setAt_id _ _ _ hgp]
      | some v0 =>
        have hcv : cont = v0 := read_connect fs kind "containers" ps cont v0 hps hcont hgp
        subst hcv
        exact maskAll_write_pod fs kind "containers" (Or.inl rfl) nc cont hgp
          (rewriteSeq_mask table cont nc hnc)
    have hsib : getPath (setAt (.vobj fs)
        ("spec" :: (podSpecPath kind ++ ["containers"])) (fun _ => nc))
        ("spec" :: (podSpecPath kind ++ ["initContainers"]))
        = getPath (.vobj fs) ("spec" :: (podSpecPath kind ++ ["initContainers"])) :=
      getPath_setAt_sibling_pod kind "containers" "initContainers" (by decide) _ _
    have hmask2 : maskAll (setAt (setAt (.vobj fs)
        ("spec" :: (podSpecPath kind ++ ["containers"])) (fun _ => nc))
        ("spec" :: (podSpecPath kind ++ ["initContainers"])) (fun _ => ni))
        = maskAll (setAt (.vobj fs)
          ("spec" :: (podSpecPath kind ++ ["containers"])) (fun _ => nc)) := by
      cases hgp : getPath (.vobj fs)
          ("spec" :: (podSpecPath kind ++ ["initContainers"])) with
      | none =>
        rw [setAt_id _ _ _ (hsib.trans hgp)]
      | some v0 =>
        have hcv : ini = v0 :=
          read_connect fs kind "initContainers" ps ini v0 hps hini hgp
        subst hcv
        rw [hX] at hsib ⊢
        exact maskAll_write_pod xfs kind "initContainers" (Or.inr rfl) ni ini
          (hsib.trans hgp) (rewriteSeq_mask table ini ni hni)
    refine ⟨hmask2.trans hmask1, ?_⟩
    rw [hX]
    obtain ⟨rfs, hR, hRpres⟩ :=
      setAt_obj_head xfs "spec" (podSpecPath kind ++ ["initContainers"])
        (fun _ => ni)
    rw [hR]
    refine ⟨rfs, rfl, ?_, ?_, ?_⟩
    · rw [hRpres "kind" (by decide), hXpres "kind" (by decide)]
    · rw [hRpres "metadata" (by decide), hXpres "metadata" (by decide)]
    · rw [← hR]
      have p2 := preserve_write_pod (.vobj xfs) kind "initContainers" (fun _ => ni)
      have p1 := preserve_write_pod (.vobj fs) kind "containers" (fun _ => nc)
      rw [p2.2.2, ← hX, p1.2.2]
  · rw [if_neg hk] at h
    have : Val.vobj fs = r := Option.some_inj.mp h
    subst this
    exact ⟨rfl, fs, rfl, rfl, rfl, rfl⟩

theorem getPath_single (fs : List (String × Val)) (k : String) :
    getPath (.vobj fs) [k] = lookupV fs k := by
  cases hl : lookupV fs k with
  | none => simp [getPath, hl]
  | some w => simp [getPath, hl]

theorem uiMatch_congr (fs fs' : List (String × Val))
    (h1 : lookupV fs' "kind" = lookupV fs "kind")
    (h2 : lookupV fs' "metadata" = lookupV fs "metadata") :
    uiMatch (.vobj fs') = uiMatch (.vobj fs) := by
  simp [uiMatch, h1, h2]

/-- Frame property of the image-rewrite rule. -/
theorem image_rewrite_frame (table : List (String × String)) (d r : Val)
    (h : image_rewrite_rule table d = some r) :
    maskAll r = maskAll d
    ∧ getPath r ["kind"] = getPath d ["kind"]
    ∧ getPath r ["metadata"] = getPath d ["metadata"]
    ∧ getPath r ["spec", "type"] = getPath d ["spec", "type"]
    ∧ uiMatch r = uiMatch d := by
  cases d with
  | vobj fs =>
    simp only [image_rewrite_rule, pyGet, Option.getD_some, Option.bind_eq_bind,
      Option.some_bind] at h
    obtain ⟨hm, fs', rfl, hk, hmd, hst⟩ := workloadBlock_frame _ _ _ _ h
    refine ⟨hm, ?_, ?_, hst, uiMatch_congr fs fs' hk hmd⟩
    · rw [getPath_single, getPath_single, hk]
    · rw [getPath_single, getPath_single, hmd]
  | vstr s => simp [image_rewrite_rule, pyGet] at h
  | vnum n => simp [image_rewrite_rule, pyGet] at h
  | vbool b => simp [image_rewrite_rule, pyGet] at h
  | vnull => simp [image_rewrite_rule, pyGet] at h
  | varr its => simp [image_rewrite_rule, pyGet] at h

/-- Frame property of the type-override rule. -/
theorem typeRewrite_frame (d r : Val) (h : typeRewrite d = some r) :
    maskAll r = maskAll d
    ∧ getPath r ["kind"] = getPath d ["kind"]
    ∧ getPath r ["metadata"] = getPath d ["metadata"]
    ∧ (uiMatch d = false → r = d) := by
  cases d with
  | vobj fs =>
    by_cases hsvc : (lookupV fs "kind").getD (.vstr "") = Val.vstr "Service"
    · cases hm : lookupV fs "metadata" with
      | none =>
        have hco : strContains (strLower "") "ui" = false := rfl
        simp [typeRewrite, hsvc, hm, lookupV, hco] at h
        subst h
        exact ⟨rfl, rfl, rfl, fun _ => rfl⟩
      | some md =>
        cases md with
        | vobj ms =>
          cases hn : lookupV ms "name" with
          | none =>
            have hco : strContains (strLower "") "ui" = false := rfl
            simp [typeRewrite, hsvc, hm, hn, hco] at h
            subst h
            exact ⟨rfl, rfl, rfl, fun _ => rfl⟩
          | some nv =>
            cases nv with
            | vstr nm =>
              by_cases hc : strContains (strLower nm) "ui" = true
              · cases hsp : lookupV fs "spec" with
                | none =>
                  simp [typeRewrite, hsvc, hm, hn, hc, hsp] at h
                  subst h
                  exact ⟨rfl, rfl, rfl, fun _ => rfl⟩
                | some sv =>
                  cases sv with
                  | vobj ss =>
                    simp only [typeRewrite, hsvc, hm, hn, hsp, Option.getD_some,
                      beq_self_eq_true, if_true, if_pos hc, Option.some_inj] at h
                    subst h
                    have hui : uiMatch (.vobj fs) = true := by
                      simp [uiMatch, hsvc, hm, hn, hc]
                    refine ⟨?_, ?_, ?_, fun hfalse => by rw [hui] at hfalse; cases hfalse⟩
                    · simp only [maskAll]
                      congr 1
                      apply map_setK_compat _ _ _ _ _ hsp
                      have hms : maskSpec (.vobj (setK ss "type" (.vstr "LoadBalancer")))
                          = maskSpec (.vobj ss) := by
                        simp only [maskSpec]
                        rw [removeK_setK_self]
                      simp [hms]
                    · rw [getPath_single, getPath_single,
                        lookup_setK_ne fs "spec" "kind" _ (by decide)]
                    · rw [getPath_single, getPath_single,
                        lookup_setK_ne fs "spec" "metadata" _ (by decide)]
                  | vstr s2 => simp [typeRewrite, hsvc, hm, hn, hc, hsp] at h
                  | vnum n2 => simp [typeRewrite, hsvc, hm, hn, hc, hsp] at h
                  | vbool b2 => simp [typeRewrite, hsvc, hm, hn, hc, hsp] at h
                  | vnull => simp [typeRewrite, hsvc, hm, hn, hc, hsp] at h
                  | varr a2 => simp [typeRewrite, hsvc, hm, hn, hc, hsp] at h
              · simp [typeRewrite, hsvc, hm, hn, hc] at h
                subst h
                exact ⟨rfl, rfl, rfl, fun _ => rfl⟩
            | vnum n2 => simp [typeRewrite, hsvc, hm, hn] at h
            | vbool b2 => simp [typeRewrite, hsvc, hm, hn] at h
            | vnull => simp [typeRewrite, hsvc, hm, hn] at h
            | vobj o2 => simp [typeRewrite, hsvc, hm, hn] at h
            | varr a2 => simp [typeRewrite, hsvc, hm, hn] at h
        | vstr s2 => simp [typeRewrite, hsvc, hm] at h
        | vnum n2 => simp [typeRewrite, hsvc, hm] at h
        | vbool b2 => simp [typeRewrite, hsvc, hm] at h
        | vnull => simp [typeRewrite, hsvc, hm] at h
        | varr a2 => simp [typeRewrite, hsvc, hm] at h
    · have hb : ((lookupV fs "kind").getD (.vstr "") == Val.vstr "Service") = false := by
        simpa using hsvc
      simp [typeRewrite, hb] at h
      subst h
      exact ⟨rfl, rfl, rfl, fun _ => rfl⟩
  | vstr s => simp [typeRewrite] at h
  | vnum n => simp [typeRewrite] at h
  | vbool b => simp [typeRewrite] at h
  | vnull => simp [typeRewrite] at h
  | varr its => simp [typeRewrite] at h

/-- Frame property of the namespace-injection rule. -/
theorem nsRewrite_frame (d r : Val) (h : nsRewrite d = some r) :
    maskAll r = maskAll d
    ∧ getPath r ["kind"] = getPath d ["kind"]
    ∧ getPath r ["metadata", "name"] = getPath d ["metadata", "name"]
    ∧ getPath r ["spec", "type"] = getPath d ["spec", "type"] := by
  cases d with
  | vobj fs =>
    cases hm : lookupV fs "metadata" with
    | none =>
      simp [nsRewrite, hm] at h
      subst h
      exact ⟨rfl, rfl, rfl, rfl⟩
    | some md =>
      cases md with
      | vobj ms =>
        by_cases hns : lookupV ms "namespace" = some (.vstr namespace_name)
        · simp [nsRewrite, hm, hns] at h
          subst h
          exact ⟨rfl, rfl, rfl, rfl⟩
        · simp [nsRewrite, hm, hns] at h
          subst h
          refine ⟨?_, ?_, ?_, ?_⟩
          · simp only [maskAll]
            congr 1
            apply map_setK_compat _ _ _ _ _ hm
            have hmm : maskMeta (.vobj (setK ms "namespace" (.vstr namespace_name)))
                = maskMeta (.vobj ms) := by
              simp only [maskMeta]
              rw [removeK_setK_self]
            simp [hmm]
          · rw [getPath_single, getPath_single,
              lookup_setK_ne fs "metadata" "kind" _ (by decide)]
          · simp only [getPath, lookup_setK_self, hm,
              lookup_setK_ne ms "namespace" "name" _ (by decide)]
          · simp only [getPath, lookup_setK_ne fs "metadata" "spec" _ (by decide)]
      | vstr s2 => simp [nsRewrite, hm] at h
      | vnum n2 => simp [nsRewrite, hm] at h
      | vbool b2 => simp [nsRewrite, hm] at h
      | vnull => simp [nsRewrite, hm] at h
      | varr a2 => simp [nsRewrite, hm] at h
  | vstr s =>
    by_cases hc : strContains s "metadata"
    · simp [nsRewrite, hc] at h
    · simp [nsRewrite, hc] at h
      subst h
      exact ⟨rfl, rfl, rfl, rfl⟩
  | vnum n => simp [nsRewrite] at h
  | vbool b => simp [nsRewrite] at h
  | vnull => simp [nsRewrite] at h
  | varr its =>
    by_cases hc : Val.vstr "metadata" ∈ its
    · simp [nsRewrite, hc] at h
    · simp [nsRewrite, hc] at h
      subst h
      exact ⟨rfl, rfl, rfl, rfl⟩

/-- The transformed spec example: image rewritten and namespace injected. -/
def exampleDeploymentOut : List (String × Val) :=
  [("kind", .vstr "Deployment"),
   ("metadata", .vobj [("name", .vstr "cart"),
     ("namespace", .vstr "retailstore")]),
   ("spec", .vobj [("template", .vobj [("spec", .vobj
     [("containers", .varr [.vobj [("name", .vstr "cart"),
        ("image", .vstr "registry/cart:abc")]]),
      ("initContainers", .varr [])])])])]

/-- C5 counterexample: a Deployment whose container image matched a service
also gets metadata.namespace injected by the pipeline, so a field other than
the image field changed, contradicting the claim's final clause. -/
theorem claim5_counterexample :
    transformPipeline exampleTable (.vobj exampleDeployment)
      = some (.vobj exampleDeploymentOut)
    ∧ getPath (.vobj exampleDeployment) ["metadata", "namespace"] = none
    ∧ getPath (.vobj exampleDeploymentOut) ["metadata", "namespace"]
      = some (.vstr "retailstore") :=
  ⟨rfl, rfl, rfl⟩

/-- C5 amended: the pipeline never alters kind, metadata.name, or any field
other than the container/init-container image fields (along either pod
path), metadata.namespace, and spec.type; spec.type changes only for a
matching ui Service.  For a workload document whose container image matched,
besides that image field only metadata.namespace may additionally change. -/
theorem claim5_frame (table : List (String × String)) (d r : Val)
    (h : transformPipeline table d = some r) :
    maskAll r = maskAll d
    ∧ getPath r ["kind"] = getPath d ["kind"]
    ∧ getPath r ["metadata", "name"] = getPath d ["metadata", "name"]
    ∧ (uiMatch d = false →
        getPath r ["spec", "type"] = getPath d ["spec", "type"]) := by
  have hre : transformPipeline table d
      = ((image_rewrite_rule table d).bind typeRewrite).bind nsRewrite := by
    rw [show transformPipeline table d
        = (replace_images_with_ecr table d).bind apply_namespace from by
      simp [transformPipeline, applyTransformations, List.foldlM]]
    rw [replace_split, bind_apply_namespace_eq, bind_type_override_eq]
  rw [hre] at h
  rw [Option.bind_eq_some] at h
  obtain ⟨r2, h12, h3⟩ := h
  rw [Option.bind_eq_some] at h12
  obtain ⟨r1, h1, h2⟩ := h12
  obtain ⟨m1, k1, md1, st1, ui1⟩ := image_rewrite_frame table d r1 h1
  obtain ⟨m2, k2, md2, hid2⟩ := typeRewrite_frame r1 r2 h2
  obtain ⟨m3, k3, nm3, st3⟩ := nsRewrite_frame r2 r h3
  refine ⟨(m3.trans m2).trans m1, (k3.trans k2).trans k1, ?_, ?_⟩
  · have hname12 : getPath r2 ["metadata", "name"] = getPath d ["metadata", "name"] := by
      rw [show (["metadata", "name"] : List String) = ["metadata"] ++ ["name"] from rfl,
        getPath_append, getPath_append, md2, md1]
    rw [nm3, hname12]
  · intro hui
    have hui1 : uiMatch r1 = false := ui1.trans hui
    have hr21 : r2 = r1 := hid2 hui1
    subst hr21
    rw [st3, st1]

theorem claim5_witness :
    maskAll (.vobj exampleDeploymentOut) = maskAll (.vobj exampleDeployment)
    ∧ getPath (.vobj exampleDeploymentOut) ["kind"]
      = getPath (.vobj exampleDeployment) ["kind"]
    ∧ getPath (.vobj exampleDeploymentOut) ["metadata", "name"]
      = getPath (.vobj exampleDeployment) ["metadata", "name"]
    ∧ getPath (.vobj exampleDeploymentOut) ["spec", "type"]
      = getPath (.vobj exampleDeployment) ["spec", "type"] := by
  have h := claim5_frame exampleTable (.vobj exampleDeployment)
    (.vobj exampleDeploymentOut) rfl
  exact ⟨h.1, h.2.1, h.2.2.1, h.2.2.2 rfl⟩

end RetailStore
